import Mathlib

/-!
Shallow embedding of the `moduledoc` package: the type-graph builder
(`buildRepresentation`), the dereference engine (`dereference`,
`deepDereference`) and the path-traversal engine (`TraverseType`),
together with the `Value` data model and the `Storage` state they act on.

Modelling conventions:
* Go machine state (`Driver.discoveredTypes` plus the `Storage` backend)
  becomes an explicit `DriverState` threaded through every operation.
* `Storage` (an external interface) is modelled as a key-value map:
  `GetTypeByName` is a keyed lookup returning `none` for a missing entry
  (the repository's convention: callers test the result against `nil`),
  `StoreType` is a keyed upsert.  `storeLog` records the identities passed
  to `StoreType` so store traffic is observable.
* The source-introspection side (`go/types`, `go list`, godoc extraction)
  is modelled as a `TypeEnv` carrying, for each named type, its package,
  name, resolved module version, underlying shape and documentation —
  exactly the data the Go helpers `typePackageAndName`, `getDepVersion`,
  `getGodocForType` and `getStructFieldGodocs` produce.
* Struct tags are carried in post-parse form (the result of
  `reflect.StructTag.Get "json"` and of `caddy.ParseStructTag`), since tag
  lexing lives in external libraries; `jsonNameFromTag` itself (which is
  code of this repository) is modelled faithfully on that data.
* Unbounded recursion is modelled with a fuel parameter: `.error .outOfFuel`
  for every fuel value means the Go original never returns.  A Go runtime
  panic (nil dereference, index out of range) is the distinguished result
  `.error (.panicked _)`, which is not an error return in Go.
-/

namespace Moduledoc

/-- Go type `Type` from sourcecode.go: a string enumeration. -/
abbrev Ty := String

namespace Ty

/-- `Bool Type = "bool"` -/
def Bool : Ty := "bool"

/-- `Int Type = "int"` -/
def Int : Ty := "int"

/-- `Uint Type = "uint"` -/
def Uint : Ty := "uint"

/-- `Float Type = "float"` -/
def Float : Ty := "float"

/-- `Complex Type = "complex"` -/
def Complex : Ty := "complex"

/-- `String Type = "string"` -/
def String : Ty := "string"

/-- `Struct Type = "struct"` -/
def Struct : Ty := "struct"

/-- `Array Type = "array"` -/
def Array : Ty := "array"

/-- `Map Type = "map"` -/
def Map : Ty := "map"

/-- `Module Type = "module"` -/
def Module : Ty := "module"

/-- `ModuleMap Type = "module_map"` -/
def ModuleMap : Ty := "module_map"

end Ty

/-- The `Value` node of sourcecode.go.  A struct field is the triple
`(Key, Value, Doc)`; the Go struct `StructField` is recovered below as an
abbreviation so accessors keep the source names. -/
inductive Value where
  | mk (type : Ty) (typeName : String)
       (structFields : List (String × Value × String))
       (mapKeys : Option Value) (elems : Option Value)
       (doc : String) (sameAs : String)
       (moduleNamespace : Option String) (moduleInlineKey : Option String)

/-- `StructField` from sourcecode.go: `(Key, Value, Doc)`. -/
abbrev StructField := String × Value × String

/-- `StructField.Key` -/
def StructField.key (sf : StructField) : String := sf.1

/-- `StructField.Value` -/
def StructField.value (sf : StructField) : Value := sf.2.1

/-- `StructField.Doc` -/
def StructField.doc (sf : StructField) : String := sf.2.2

/-- `Value.Type` -/
def Value.type : Value → Ty
  | .mk t _ _ _ _ _ _ _ _ => t

/-- `Value.TypeName` -/
def Value.typeName : Value → String
  | .mk _ n _ _ _ _ _ _ _ => n

/-- `Value.StructFields` -/
def Value.structFields : Value → List StructField
  | .mk _ _ f _ _ _ _ _ _ => f

/-- `Value.MapKeys` -/
def Value.mapKeys : Value → Option Value
  | .mk _ _ _ k _ _ _ _ _ => k

/-- `Value.Elems` -/
def Value.elems : Value → Option Value
  | .mk _ _ _ _ e _ _ _ _ => e

/-- `Value.Doc` -/
def Value.doc : Value → String
  | .mk _ _ _ _ _ d _ _ _ => d

/-- `Value.SameAs` -/
def Value.sameAs : Value → String
  | .mk _ _ _ _ _ _ s _ _ => s

/-- `Value.ModuleNamespace` -/
def Value.moduleNamespace : Value → Option String
  | .mk _ _ _ _ _ _ _ ns _ => ns

/-- `Value.ModuleInlineKey` -/
def Value.moduleInlineKey : Value → Option String
  | .mk _ _ _ _ _ _ _ _ ik => ik

/-- Field update: `v.Doc = d`. -/
def Value.setDoc : Value → String → Value
  | .mk t n f k e _ s ns ik, d => .mk t n f k e d s ns ik

/-- Field update: `v.TypeName = n`. -/
def Value.setTypeName : Value → String → Value
  | .mk t _ f k e d s ns ik, n => .mk t n f k e d s ns ik

/-- Field update: `v.StructFields = f`. -/
def Value.setStructFields : Value → List StructField → Value
  | .mk t n _ k e d s ns ik, f => .mk t n f k e d s ns ik

/-- Field update: `v.MapKeys = k`. -/
def Value.setMapKeys : Value → Option Value → Value
  | .mk t n f _ e d s ns ik, k => .mk t n f k e d s ns ik

/-- Field update: `v.Elems = e`. -/
def Value.setElems : Value → Option Value → Value
  | .mk t n f k _ d s ns ik, e => .mk t n f k e d s ns ik

/-- Field update: `v.ModuleNamespace = ns`. -/
def Value.setModuleNamespace : Value → Option String → Value
  | .mk t n f k e d s _ ik, ns => .mk t n f k e d s ns ik

/-- Field update: `v.ModuleInlineKey = ik`. -/
def Value.setModuleInlineKey : Value → Option String → Value
  | .mk t n f k e d s ns _, ik => .mk t n f k e d s ns ik

/-- `new(Value)`: the zero value. -/
def Value.empty : Value := .mk "" "" [] none none "" "" none none

/-- `&Value{Type: t}` -/
def Value.ofType (t : Ty) : Value := .mk t "" [] none none "" "" none none

/-- `&Value{SameAs: s}` -/
def Value.placeholder (s : String) : Value := .mk "" "" [] none none "" s none none

/-- `&Value{Type: Struct}` with its accumulated `StructFields`. -/
def Value.structOf (sfs : List StructField) : Value :=
  .mk Ty.Struct "" sfs none none "" "" none none

/-- `&Value{Type: Array, Elems: e}` -/
def Value.arrayOf (e : Value) : Value :=
  .mk Ty.Array "" [] none (some e) "" "" none none

/-- `&Value{Type: Map, MapKeys: k, Elems: e}` -/
def Value.mapOf (k e : Value) : Value :=
  .mk Ty.Map "" [] (some k) (some e) "" "" none none

/-- Errors: `fmt.Errorf` results (`msg`), fuel exhaustion standing for
non-termination (`outOfFuel`), and Go runtime panics (`panicked`). -/
inductive GoErr where
  | msg (s : String)
  | outOfFuel
  | panicked (s : String)
deriving DecidableEq

/-- The mutable state the driver acts on: the session's
`Driver.discoveredTypes` cache and the external `Storage`
(`dbTypes` keyed by `(packagePath, typeName, version)`,
`dbModules` the extension-id index), plus a log of `StoreType` calls. -/
structure DriverState where
  discoveredTypes : List (String × Value)
  dbTypes : List ((String × String × String) × Value)
  dbModules : List (String × List Value)
  storeLog : List (String × String × String)

/-- A fresh session over a given storage: `New` makes
`discoveredTypes` empty. -/
def DriverState.newSession (db : List ((String × String × String) × Value))
    (mods : List (String × List Value)) : DriverState :=
  ⟨[], db, mods, []⟩

/-- Lookup in `Driver.discoveredTypes`. -/
def discLookup (st : DriverState) (k : String) : Option Value :=
  (st.discoveredTypes.find? (fun e => e.1 == k)).map (·.2)

/-- `Storage.GetTypeByName`: keyed lookup, `none` when absent
(the repo's convention is a `nil` result, not an error). -/
def dbGetTypeByName (st : DriverState) (pkg name version : String) : Option Value :=
  (st.dbTypes.find? (fun e => e.1 == (pkg, name, version))).map (·.2)

/-- Keyed upsert used to model the `Storage` key-value contract. -/
def upsertDb (l : List ((String × String × String) × Value))
    (k : String × String × String) (v : Value) :
    List ((String × String × String) × Value) :=
  if l.any (fun e => e.1 == k) then
    l.map (fun e => if e.1 == k then (k, v) else e)
  else l ++ [(k, v)]

/-- `Storage.StoreType`, also recording the call in `storeLog`. -/
def dbStoreType (st : DriverState) (pkg name version : String) (rep : Value) :
    DriverState :=
  { st with dbTypes := upsertDb st.dbTypes (pkg, name, version) rep,
            storeLog := st.storeLog ++ [(pkg, name, version)] }

/-- `Storage.GetTypesByCaddyModuleID`: the extension-id index; an
unregistered id yields the empty list (missing value, not an error). -/
def dbGetTypesByCaddyModuleID (st : DriverState) (id : String) : List Value :=
  ((st.dbModules.find? (fun e => e.1 == id)).map (·.2)).getD []

/-- `SplitLastDot` from workspace.go: split at the last dot;
without a dot, `before` is empty. -/
def SplitLastDot (input : String) : String × String :=
  let cs := input.toList
  match cs.reverse.findIdx? (fun c => c == '.') with
  | none => ("", input)
  | some j =>
    let i := cs.length - 1 - j
    (String.mk (cs.take i), String.mk (cs.drop (i + 1)))

/-- `strings.SplitN(sameAs, "@", 2)` as used by `dereference`:
the part before the first `@` and the rest (empty without `@`). -/
def splitSameAs (s : String) : String × String :=
  match s.toList.findIdx? (fun c => c == '@') with
  | none => (s, "")
  | some i => (String.mk (s.toList.take i), String.mk (s.toList.drop (i + 1)))

/-- `strings.Split` on a single-character separator, on the character
list (an empty input yields one empty part, as in Go). -/
def splitOnChar (sep : Char) : List Char → List (List Char)
  | [] => [[]]
  | c :: rest =>
    match splitOnChar sep rest with
    | [] => if c == sep then [[], []] else [[c]]
    | p :: ps => if c == sep then [] :: p :: ps else (c :: p) :: ps

/-- `strings.TrimSpace`: drop whitespace from both ends. -/
def trimSpace (s : String) : String :=
  String.mk
    (((s.toList.dropWhile Char.isWhitespace).reverse.dropWhile
        Char.isWhitespace).reverse)

/-- `ConfigPathParts` from workspace.go: trim leading and trailing
slashes, then split on `/`. -/
def ConfigPathParts (configPath : String) : List String :=
  (splitOnChar '/'
    (((configPath.toList.dropWhile (fun c => c == '/')).reverse.dropWhile
        (fun c => c == '/')).reverse)).map (fun cs => String.mk cs)

/-- A struct tag in post-parse form: the value of
`reflect.StructTag(tagStr).Get("json")` (empty when the tag is absent,
exactly as in Go) and the `namespace` / `inline_key` entries of the
`caddy:` tag as produced by `caddy.ParseStructTag`. -/
structure GoStructTag where
  json : String
  caddyNamespace : Option String
  caddyInlineKey : Option String
deriving DecidableEq

/-- `jsonNameFromTag` from workspace.go, on the post-parse tag:
take the part before the first comma when that comma is at a positive
index, trim it, and reject the name `-`. -/
def jsonNameFromTag (tag : GoStructTag) : String × Bool :=
  let cs := tag.json.toList
  let jsonName :=
    match cs.findIdx? (fun c => c == ',') with
    | some i => if 0 < i then trimSpace (String.mk (cs.take i)) else tag.json
    | none => tag.json
  if jsonName == "-" then ("", false) else (jsonName, true)

/-- `caddyTagFields` from workspace.go: the `namespace` and `inline_key`
entries of the parsed `caddy:` tag (the parser itself is the external
`caddy.ParseStructTag`). -/
def caddyTagFields (tag : GoStructTag) : Option String × Option String :=
  (tag.caddyNamespace, tag.caddyInlineKey)

/-- The `go/types` basic kinds distinguished by `buildRepresentation`. -/
inductive GoBasicKind where
  | bool | int | int8 | int16 | int32 | int64
  | uint | uint8 | uint16 | uint32 | uint64 | uintptr
  | float32 | float64 | complex64 | complex128
  | string | other
deriving DecidableEq

mutual
/-- The `go/types` type shapes `buildRepresentation` switches on.  Named
types are references into a `TypeEnv` so that (mutually) recursive Go
types are expressible. -/
inductive GoType where
  | interfaceType
  | pointer (elem : GoType)
  | basic (k : GoBasicKind)
  | named (id : String)
  | structType (fields : List GoField)
  | slice (elem : GoType)
  | mapType (key elem : GoType)
  | otherType (desc : String)

/-- One `*types.Var` struct field together with its tag. -/
inductive GoField where
  | mk (name : String) (exported embedded : Bool) (tag : GoStructTag)
       (type : GoType)
end

/-- `field.Name()` -/
def GoField.name : GoField → String
  | .mk n _ _ _ _ => n

/-- `field.Exported()` -/
def GoField.exported : GoField → Bool
  | .mk _ e _ _ _ => e

/-- `field.Embedded()` -/
def GoField.embedded : GoField → Bool
  | .mk _ _ e _ _ => e

/-- the field's struct tag -/
def GoField.tag : GoField → GoStructTag
  | .mk _ _ _ t _ => t

/-- `field.Type()` -/
def GoField.type : GoField → GoType
  | .mk _ _ _ _ t => t

/-- What the introspection side (`go/types`, `go list`, godoc lookup)
knows about one named type: `typePackageAndName`, the version resolved
by `getDepVersion`, `typ.Underlying()`, and the documentation returned
by `getGodocForType` / `getStructFieldGodocs`. -/
structure NamedType where
  pkg : String
  name : String
  version : String
  underlying : GoType
  godoc : String
  fieldGodocs : List (String × String)

/-- The named types of the workspace, keyed by identifier. -/
abbrev TypeEnv := List (String × NamedType)

/-- Resolve a named-type reference in the workspace. -/
def envLookup (env : TypeEnv) (id : String) : Option NamedType :=
  (env.find? (fun e => e.1 == id)).map (·.2)

/-- `fullyQualifiedTypeName` from workspace.go (named types have a
non-empty package path and name). -/
def fullyQualifiedTypeName (nt : NamedType) : String :=
  nt.pkg ++ "." ++ nt.name

/-- The `sameAs` cache key computed by `buildRepresentation`: the
fully-qualified type name, `@version`-qualified when a version is known. -/
def sameAsKey (nt : NamedType) : String :=
  if nt.version == "" then fullyQualifiedTypeName nt
  else fullyQualifiedTypeName nt ++ "@" ++ nt.version

/-- `structFieldDocs[field.Name()]`: Go map lookup, empty when absent. -/
def lookupDoc (docs : List (String × String)) (name : String) : String :=
  ((docs.find? (fun e => e.1 == name)).map (·.2)).getD ""

/-- Lines 270–279 of the builder (identical at 342–351): pick
`modVal` — the field value's `Elems` if it has one, else the value
itself — and set `ModuleNamespace` / `ModuleInlineKey` from the
`caddy:` tag entries that are present. -/
def applyModTags (tag : GoStructTag) (mv : Value) : Value :=
  let ctf := caddyTagFields tag
  let mv := match ctf.1 with
    | some moduleNamespace => mv.setModuleNamespace (some moduleNamespace)
    | none => mv
  match ctf.2 with
  | some inlineKey => mv.setModuleInlineKey (some inlineKey)
  | none => mv

/-- Choose `modVal` and apply the tag writes to it. -/
def attachModInfo (tag : GoStructTag) (fieldRep : Value) : Value :=
  match fieldRep.elems with
  | some ev => fieldRep.setElems (some (applyModTags tag ev))
  | none => applyModTags tag fieldRep

/-- The loop in `dereference` that dives through `Elems` until the value
is not a map or array, then writes the namespace and inline key there. -/
def setInnermostModInfo (v : Value) (ns ik : Option String) : Value :=
  match v with
  | .mk t n f k (some ev) d s ns0 ik0 =>
    .mk t n f k (some (setInnermostModInfo ev ns ik)) d s ns0 ik0
  | .mk t n f k none d s _ _ => .mk t n f k none d s ns ik

/-- The storage load performed by `dereference` via `getTypeByFullName`:
split `sameAs` at the first `@`, split the name at the last dot, and
look the `(package, name, version)` key up in storage. -/
def derefLoad (st : DriverState) (sameAs : String) : Option Value :=
  let fv := splitSameAs sameAs
  let pn := SplitLastDot fv.1
  dbGetTypeByName st pn.1 pn.2 fv.2

/-- `Driver.dereference`: follow `val.SameAs`; a no-op for the empty
string; on a hit, transfer the namespace/inline key onto the innermost
non-container node and prepend the referencing value's doc. -/
def dereference (st : DriverState) (val : Value) : Except GoErr (Value × DriverState) :=
  if val.sameAs == "" then .ok (val, st)
  else
    let fv := splitSameAs val.sameAs
    match derefLoad st val.sameAs with
    | none =>
      .error (.msg ("dereference failed, type not found: " ++ fv.1 ++ "@" ++ fv.2))
    | some typ =>
      let typ := setInnermostModInfo typ val.moduleNamespace val.moduleInlineKey
      let typ := if val.doc == "" then typ
                 else typ.setDoc (val.doc ++ "\n\n" ++ typ.doc)
      .ok (typ, st)

mutual
/-- `representationBuilder.buildRepresentation`, with `TypeEnv` standing
for the workspace introspection data, and fuel standing for the call
stack (`.error .outOfFuel` at every fuel means the Go code never
returns). -/
def buildRep : Nat → TypeEnv → DriverState → GoType →
    Except GoErr (Value × DriverState)
  | 0, _, _, _ => .error .outOfFuel
  | f + 1, env, st, t =>
    match t with
    | .interfaceType => .ok (Value.empty, st)
    | .pointer elem => buildRep f env st elem
    | .basic k =>
      match k with
      | .bool => .ok (Value.ofType Ty.Bool, st)
      | .int | .int8 | .int16 | .int32 | .int64 => .ok (Value.ofType Ty.Int, st)
      | .uint | .uint8 | .uint16 | .uint32 | .uint64 | .uintptr =>
        .ok (Value.ofType Ty.Uint, st)
      | .float32 | .float64 => .ok (Value.ofType Ty.Float, st)
      | .complex64 | .complex128 => .ok (Value.ofType Ty.Complex, st)
      | .string => .ok (Value.ofType Ty.String, st)
      | .other => .error (.msg "unrecognized basic kind")
    | .named id =>
      match envLookup env id with
      | none => .error (.msg ("unable to determine the package of type " ++ id))
      | some nt =>
        let sameAs := sameAsKey nt
        match discLookup st sameAs with
        | some _ => .ok (Value.placeholder sameAs, st)
        | none =>
          match dbGetTypeByName st nt.pkg nt.name nt.version with
          | some discoveredType =>
            let st := { st with
              discoveredTypes := (sameAs, discoveredType) :: st.discoveredTypes }
            .ok (Value.placeholder discoveredType.typeName, st)
          | none =>
            if nt.pkg == "encoding/json" && nt.name == "RawMessage" then
              .ok (Value.ofType Ty.Module, st)
            else
              match buildUnderlying f env st nt.underlying nt.fieldGodocs with
              | .error e => .error e
              | .ok (rep, st) =>
                let rep := (rep.setDoc nt.godoc).setTypeName (fullyQualifiedTypeName nt)
                let st := { st with
                  discoveredTypes := (sameAs, rep) :: st.discoveredTypes }
                let st := dbStoreType st nt.pkg nt.name nt.version rep
                .ok (Value.placeholder sameAs, st)
    | .structType fields =>
      match buildAnonFields f env st fields with
      | .error e => .error e
      | .ok (sfs, st) => .ok (Value.structOf sfs, st)
    | .slice elem =>
      match buildRep f env st elem with
      | .error e => .error e
      | .ok (elemRep, st) => .ok (Value.arrayOf elemRep, st)
    | .mapType key elem =>
      match buildRep f env st key with
      | .error e => .error e
      | .ok (keyRep, st) =>
        match buildRep f env st elem with
        | .error e => .error e
        | .ok (elemRep, st) =>
          if keyRep.type == Ty.String && elemRep.type == Ty.Module then
            .ok (Value.ofType Ty.ModuleMap, st)
          else .ok (Value.mapOf keyRep elemRep, st)
    | .otherType desc => .error (.msg ("unknown type " ++ desc))

/-- The expansion of a new named type (the `switch utyp :=
typ.Underlying()` at line 234): a struct underlying goes through the
field loop, any other underlying shape recurses on the underlying
type. -/
def buildUnderlying : Nat → TypeEnv → DriverState → GoType →
    List (String × String) → Except GoErr (Value × DriverState)
  | 0, _, _, _, _ => .error .outOfFuel
  | f + 1, env, st, u, docs =>
    match u with
    | .structType fields =>
      match buildNamedFields f env st fields docs with
      | .error e => .error e
      | .ok (sfs, st) => .ok (Value.structOf sfs, st)
    | u => buildRep f env st u

/-- The field loop of the named-struct case (lines 244–297): skip
unexported fields and fields without a usable JSON name, build the field
type, attach tag metadata, splice dereferenced embedded structs, and
record per-field godoc. -/
def buildNamedFields : Nat → TypeEnv → DriverState → List GoField →
    List (String × String) → Except GoErr (List StructField × DriverState)
  | 0, _, _, _, _ => .error .outOfFuel
  | f + 1, env, st, fields, docs =>
    match fields with
    | [] => .ok ([], st)
    | field :: rest =>
      if !field.exported then buildNamedFields f env st rest docs
      else
        let jn := jsonNameFromTag field.tag
        if !jn.2 || (jn.1 == "" && !field.embedded) then
          buildNamedFields f env st rest docs
        else
          match buildRep f env st field.type with
          | .error e => .error e
          | .ok (fieldRep, st) =>
            let fieldRep := attachModInfo field.tag fieldRep
            if field.embedded then
              match dereference st fieldRep with
              | .error e => .error e
              | .ok (embedded, st) =>
                let spliced := if embedded.type == Ty.Struct
                               then embedded.structFields else []
                match buildNamedFields f env st rest docs with
                | .error e => .error e
                | .ok (sfs, st) => .ok (spliced ++ sfs, st)
            else
              match buildNamedFields f env st rest docs with
              | .error e => .error e
              | .ok (sfs, st) =>
                .ok ((jn.1, fieldRep, lookupDoc docs field.name) :: sfs, st)

/-- The field loop of the anonymous-struct case (lines 327–364): no
exported-field check, no godoc, no dereference for embedded fields. -/
def buildAnonFields : Nat → TypeEnv → DriverState → List GoField →
    Except GoErr (List StructField × DriverState)
  | 0, _, _, _ => .error .outOfFuel
  | f + 1, env, st, fields =>
    match fields with
    | [] => .ok ([], st)
    | field :: rest =>
      let jn := jsonNameFromTag field.tag
      if !jn.2 then buildAnonFields f env st rest
      else
        match buildRep f env st field.type with
        | .error e => .error e
        | .ok (fieldRep, st) =>
          let fieldRep := attachModInfo field.tag fieldRep
          if field.embedded then
            let spliced := if fieldRep.type == Ty.Struct
                           then fieldRep.structFields else []
            match buildAnonFields f env st rest with
            | .error e => .error e
            | .ok (sfs, st) => .ok (spliced ++ sfs, st)
          else
            match buildAnonFields f env st rest with
            | .error e => .error e
            | .ok (sfs, st) => .ok ((jn.1, fieldRep, "") :: sfs, st)
end

mutual
/-- `Driver.deepDereference`: dereference, then recursively dereference
every struct field value, the map keys, and the map/array elements,
merging field docs with the (container-peeled) target docs. -/
def deepDereference : Nat → DriverState → Value →
    Except GoErr (Value × DriverState)
  | 0, _, _ => .error .outOfFuel
  | f + 1, st, val =>
    match dereference st val with
    | .error e => .error e
    | .ok (val, st) =>
      match deepDerefFields f st val.structFields with
      | .error e => .error e
      | .ok (sfs, st) =>
        let val := val.setStructFields sfs
        match deepDerefMapKeys f st val with
        | .error e => .error e
        | .ok (val, st) => deepDerefElems f st val

/-- The struct-field loop of `deepDereference` (lines 546–572),
including the doc merge between the field doc and the underlying
type's doc. -/
def deepDerefFields : Nat → DriverState → List StructField →
    Except GoErr (List StructField × DriverState)
  | 0, _, _ => .error .outOfFuel
  | f + 1, st, sfs =>
    match sfs with
    | [] => .ok ([], st)
    | sf :: rest =>
      match deepDereference f st sf.value with
      | .error e => .error e
      | .ok (v, st) =>
        let merged : Value × String :=
          match v with
          | .mk t n fl k (some ev) d s ns ik =>
            let ev := if sf.doc == "" then ev
                      else ev.setDoc (trimSpace (sf.doc ++ "\n\n" ++ ev.doc))
            (.mk t n fl k (some ev) d s ns ik, ev.doc)
          | .mk t n fl k none d s ns ik =>
            let d := if sf.doc == "" then d else trimSpace (sf.doc ++ "\n\n" ++ d)
            (.mk t n fl k none d s ns ik, d)
        let sfDoc := if merged.2 == "" then sf.doc else merged.2
        match deepDerefFields f st rest with
        | .error e => .error e
        | .ok (sfs', st) => .ok ((sf.key, merged.1, sfDoc) :: sfs', st)

/-- The `MapKeys` recursion of `deepDereference` (lines 575–580). -/
def deepDerefMapKeys : Nat → DriverState → Value →
    Except GoErr (Value × DriverState)
  | 0, _, _ => .error .outOfFuel
  | f + 1, st, val =>
    match val.mapKeys with
    | none => .ok (val, st)
    | some mk0 =>
      match deepDereference f st mk0 with
      | .error e => .error e
      | .ok (mk1, st) => .ok (val.setMapKeys (some mk1), st)

/-- The `Elems` recursion of `deepDereference` (lines 583–588). -/
def deepDerefElems : Nat → DriverState → Value →
    Except GoErr (Value × DriverState)
  | 0, _, _ => .error .outOfFuel
  | f + 1, st, val =>
    match val.elems with
    | none => .ok (val, st)
    | some e0 =>
      match deepDereference f st e0 with
      | .error e => .error e
      | .ok (e1, st) => .ok (val.setElems (some e1), st)
end

/-- The Caddy module lookup identifier computed in the `Module` /
`ModuleMap` branch of `TraverseType`: `namespace + "." + segment` when a
non-empty namespace is set, else the bare segment. -/
def moduleLookupID (v : Value) (part : String) : String :=
  match v.moduleNamespace with
  | some ns => if ns == "" then part else ns ++ "." ++ part
  | none => part

/-- The `typeSwitch` body of one traversal iteration, on the already
dereferenced value: resolve the segment against a struct field, a Caddy
module identifier, or a container element (the latter without advancing
the segment index, Go's `i--`). -/
def traverseStep (st : DriverState) (parts : List String) (i : Nat)
    (part : String) (val : Value) : Except GoErr (Value × Nat) :=
  if val.type == Ty.Struct then
    match val.structFields.find? (fun sf => sf.1 == part) with
    | some sf =>
      let v := sf.value
      let v :=
        if i == parts.length - 1 then
          let v := if v.doc == "" then v else v.setDoc (v.doc ++ "\n\n")
          v.setDoc (v.doc ++ sf.doc)
        else v
      .ok (v, i + 1)
    | none => .error (.msg ("struct field not found: " ++ part))
  else if val.type == Ty.Module || val.type == Ty.ModuleMap then
    let caddyModuleID := moduleLookupID val part
    let moduleInlineKey :=
      if i == parts.length - 1 then val.moduleInlineKey else none
    match dbGetTypesByCaddyModuleID st caddyModuleID with
    | [] => .error (.panicked "index out of range")
    | v0 :: _ => .ok (v0.setModuleInlineKey moduleInlineKey, i + 1)
  else if val.type == Ty.Map || val.type == Ty.Array then
    match val.elems with
    | none => .error (.panicked "nil pointer dereference")
    | some ev => .ok (ev, i)
  else .error (.msg "traversal not supported for type")

/-- The traversal loop of `Driver.TraverseType` (driver.go lines
186–249).  The map/array branch re-consumes the same segment against the
element (`i--` in Go); the module branch indexes `vals[0]`, a runtime
panic when storage has no candidate; a nil `Elems` likewise panics when
the following `val.TypeName` read dereferences nil. -/
def traverseLoop : Nat → DriverState → List String → Nat → Value → Value →
    Except GoErr ((Value × Value) × DriverState)
  | 0, _, _, _, _, _ => .error .outOfFuel
  | f + 1, st, parts, i, val, nearestType =>
    if h : i < parts.length then
      let part := parts.get ⟨i, h⟩
      match dereference st val with
      | .error e => .error e
      | .ok (val, st) =>
        match traverseStep st parts i part val with
        | .error e => .error e
        | .ok (val2, i2) =>
          let nearest2 := if val2.typeName == "" then nearestType else val2
          traverseLoop f st parts i2 val2 nearest2
    else .ok ((val, nearestType), st)

/-- `Driver.TraverseType`: reject a start value without a kind or a type
name, return the start for the empty path, else run the loop. -/
def TraverseType (fuel : Nat) (st : DriverState) (path : String)
    (start : Value) : Except GoErr ((Value × Value) × DriverState) :=
  if start.type == "" || start.typeName == "" then
    .error (.msg "must start at an actual type")
  else if path == "" then .ok ((start, start), st)
  else traverseLoop fuel st (ConfigPathParts path) 0 start start

/-! ### Derived definitions used by the verification below -/

/-- Follow the `Elems` chain to the innermost non-container node (the
node `dereference`'s transfer loop ends on). -/
def innermostByElems (v : Value) : Value :=
  match v with
  | .mk _ _ _ _ (some ev) _ _ _ _ => innermostByElems ev
  | w => w

/-- The keys of the type store are pairwise distinct (a key-value store
invariant, maintained by the upsert model of `StoreType`). -/
def DbKeysNodup (st : DriverState) : Prop :=
  (st.dbTypes.map (fun e => e.1)).Nodup

mutual
/-- Every non-empty `SameAs` reference occurring anywhere in a value. -/
def valueRefs : Value → List String
  | .mk _ _ fs k e _ s _ _ =>
    (if s == "" then [] else [s]) ++ fieldListRefs fs ++ optValueRefs k ++
      optValueRefs e

/-- `valueRefs` over a field list. -/
def fieldListRefs : List StructField → List String
  | [] => []
  | sf :: rest => valueRefs sf.2.1 ++ fieldListRefs rest

/-- `valueRefs` over an optional value. -/
def optValueRefs : Option Value → List String
  | none => []
  | some v => valueRefs v
end

/-- `deepDereference` exhausts every fuel budget: the Go original never
returns on this input. -/
def DeepDerefDiverges (st : DriverState) (v : Value) : Prop :=
  ∀ fuel, deepDereference fuel st v = .error .outOfFuel

/-- `buildRepresentation` exhausts every fuel budget: the Go original
never returns on this input. -/
def BuildDiverges (env : TypeEnv) (st : DriverState) (t : GoType) : Prop :=
  ∀ fuel, buildRep fuel env st t = .error .outOfFuel

/-- The storage reference graph is ranked: everything a stored node
refers to has strictly smaller rank than any name that dereferences to
that node.  This is the acyclicity condition under which
`deepDereference` terminates. -/
def DBRanked (rank : String → Nat) (st : DriverState) : Prop :=
  ∀ s N, derefLoad st s = some N → ∀ r ∈ valueRefs N, rank r < rank s

/-! ### Concrete inputs for the individual claims -/

/-- C1: the tag of the self-referential field. -/
def c1tag : GoStructTag := ⟨"next", none, none⟩

/-- C1: a named struct type `p.T` with a field of type `*p.T`. -/
def c1nt : NamedType :=
  ⟨"p", "T", "", .structType [.mk "Next" true false c1tag (.pointer (.named "T"))],
    "", []⟩

/-- C1: workspace with only the self-referential type. -/
def c1env : TypeEnv := [("T", c1nt)]

/-- C1: fresh session, empty storage. -/
def c1st : DriverState := ⟨[], [], [], []⟩

/-- C4: the stored shape the spec prescribes for a self-referential
struct: an expanded node whose named child is a placeholder back to the
node's own identity. -/
def c4node : Value :=
  Value.mk Ty.Struct "p.T" [("next", Value.placeholder "p.T", "")]
    none none "" "" none none

/-- C4: storage holding the self-referential graph. -/
def c4st : DriverState := ⟨[], [(("p", "T", ""), c4node)], [], []⟩

/-- C4 witness: storage with one leaf entry and no references. -/
def c4leafSt : DriverState :=
  ⟨[], [(("p", "A", ""), Value.ofType Ty.Struct)], [], []⟩

/-- C5: tag carrying a module namespace on a doubly-nested slice. -/
def c5tag : GoStructTag := ⟨"mods", some "ns", none⟩

/-- C5: named struct `p.W` with field `Mods [][]json.RawMessage`. -/
def c5env : TypeEnv :=
  [("W", ⟨"p", "W", "",
      .structType [.mk "Mods" true false c5tag (.slice (.slice (.named "RM")))],
      "", []⟩),
   ("RM", ⟨"encoding/json", "RawMessage", "", .basic .string, "", []⟩)]

/-- C5: the inner array node: the namespace lands here, one level below
the field value, although this node is itself a container. -/
def c5inner : Value :=
  (Value.arrayOf (Value.ofType Ty.Module)).setModuleNamespace (some "ns")

/-- C5: the committed field value. -/
def c5field : Value := Value.arrayOf c5inner

/-- C5: the node committed to storage for `p.W`. -/
def c5rep : Value :=
  Value.mk Ty.Struct "p.W" [("mods", c5field, "")] none none "" "" none none

/-- C5: the state after building `p.W` in a fresh session. -/
def c5st : DriverState :=
  match buildRep 10 c5env (DriverState.newSession [] []) (.named "W") with
  | .ok (_, st) => st
  | _ => DriverState.newSession [] []

/-- C5 witness: storage with an array-of-module entry. -/
def c5wSt : DriverState :=
  ⟨[], [(("p", "L", ""), Value.arrayOf (Value.ofType Ty.Module))], [], []⟩

/-- C6: start type `p.Outer` = `{items: [ {name: string} ]}`. -/
def c6outer : Value :=
  Value.mk Ty.Struct "p.Outer"
    [("items",
      Value.arrayOf (Value.structOf [("name", Value.ofType Ty.String, "")]), "")]
    none none "" "" none none

/-- C9: the referenced target type with its own doc. -/
def c9widget : Value :=
  ((Value.ofType Ty.Struct).setTypeName "p.Widget").setDoc "A generic widget."

/-- C9: storage holding the target type. -/
def c9st : DriverState := ⟨[], [(("p", "Widget", ""), c9widget)], [], []⟩

/-- C9: a referencing value with field-context doc. -/
def c9ref : Value := (Value.placeholder "p.Widget").setDoc "Used for X."

/-- C2: a named int alias `p.B@v1` with a godoc. -/
def c2nt : NamedType := ⟨"p", "B", "v1", .basic .int, "docB", []⟩

/-- C2: workspace holding only `p.B`. -/
def c2env : TypeEnv := [("B", c2nt)]

/-- C3: the same named int alias `p.B@v1`. -/
def c3nt : NamedType := ⟨"p", "B", "v1", .basic .int, "docB", []⟩

/-- C3: workspace holding only `p.B`. -/
def c3env : TypeEnv := [("B", c3nt)]

/-- C3: the driver state after the first build of `p.B`. -/
def c3st : DriverState :=
  match buildRep 3 c3env (DriverState.newSession [] []) (.named "B") with
  | .ok (_, st) => st
  | _ => DriverState.newSession [] []

/-! ### Shared lemmas -/

theorem Value.setDoc_doc (v : Value) (d : String) : (v.setDoc d).doc = d := by
  cases v; rfl

theorem setInnermostModInfo_doc (v : Value) (ns ik : Option String) :
    (setInnermostModInfo v ns ik).doc = v.doc := by
  cases v with
  | mk t n f k e d s a b => cases e <;> rfl

theorem innermostByElems_setInnermost :
    ∀ (v : Value) (ns ik : Option String),
      (innermostByElems (setInnermostModInfo v ns ik)).moduleNamespace = ns ∧
      (innermostByElems (setInnermostModInfo v ns ik)).moduleInlineKey = ik
  | .mk t n f k none d s a b, ns, ik => ⟨rfl, rfl⟩
  | .mk t n f k (some ev) d s a b, ns, ik => by
    simpa [setInnermostModInfo, innermostByElems] using
      innermostByElems_setInnermost ev ns ik

theorem Value.setElems_elems (v : Value) (o : Option Value) :
    (v.setElems o).elems = o := by
  cases v; rfl

theorem Value.setElems_moduleNamespace (v : Value) (o : Option Value) :
    (v.setElems o).moduleNamespace = v.moduleNamespace := by
  cases v; rfl

theorem applyModTags_elems (tag : GoStructTag) (v : Value) :
    (applyModTags tag v).elems = v.elems := by
  cases v with
  | mk t n f k e d s a b =>
    simp only [applyModTags, caddyTagFields]
    rcases tag.caddyNamespace with _ | ns <;>
      rcases tag.caddyInlineKey with _ | ik <;> rfl

theorem innermostByElems_elems (v w : Value) (h : v.elems = some w) :
    innermostByElems v = innermostByElems w := by
  cases v with
  | mk t n f k e d s a b =>
    simp only [Value.elems] at h
    subst h
    rfl

theorem innermostByElems_setDoc (v : Value) (d : String) :
    (innermostByElems (v.setDoc d)).moduleNamespace =
      (innermostByElems v).moduleNamespace ∧
    (innermostByElems (v.setDoc d)).moduleInlineKey =
      (innermostByElems v).moduleInlineKey := by
  cases v with
  | mk t n f k e d0 s a b => cases e <;> exact ⟨rfl, rfl⟩

/-! ### Claim C1 -/

/-- Claim C1 (code_bug): the claim says a directly self-referential
struct builds to completion, with the self-typed field represented by a
placeholder whose identity equals the parent's.  The code instead
recurses forever: it commits a named type to the discovered set only
*after* its fields are built, so the discovered-set short-circuit can
never fire inside the type's own expansion.  On `p.T = struct { Next
*p.T }` with a fresh session and empty storage, `buildRepresentation`
exhausts every fuel budget. -/
theorem C1_selfref_build_divergence : BuildDiverges c1env c1st (.named "T") := by
  intro fuel
  induction fuel using Nat.strong_induction_on with
  | _ fuel ih =>
    match fuel with
    | 0 => rfl
    | 1 => rfl
    | 2 => rfl
    | 3 => rfl
    | (f+4) =>
      have h := ih f (by omega)
      simp only [c1env, c1nt, c1st, c1tag] at h
      simp +decide [buildRep, buildUnderlying, buildNamedFields, c1env, c1nt, c1st,
        envLookup, discLookup, dbGetTypeByName, sameAsKey, fullyQualifiedTypeName,
        GoField.exported, GoField.tag, GoField.embedded, GoField.name, GoField.type,
        jsonNameFromTag, c1tag, h]

/-! ### Claim C5 -/

/-- Claim C5 (counterexample): with a doubly-wrapped module field
`Mods [][]json.RawMessage` tagged with a namespace, the committed
representation carries the namespace on the *middle array node* — a
container — while the innermost `module` leaf carries none, refuting
"extension metadata always ends up on the innermost non-container
value". -/
theorem C5_metadata_on_container :
    dbGetTypeByName c5st "p" "W" "" = some c5rep ∧
    c5rep.structFields = [("mods", c5field, "")] ∧
    c5field.elems = some c5inner ∧
    c5inner.type = Ty.Array ∧
    c5inner.moduleNamespace = some "ns" ∧
    c5inner.elems = some (Value.ofType Ty.Module) ∧
    (Value.ofType Ty.Module).moduleNamespace = none ∧
    (innermostByElems c5field).moduleNamespace = none :=
  ⟨rfl, rfl, rfl, rfl, rfl, rfl, rfl, rfl⟩

/-- Claim C5 (amended): at build time the tag metadata is attached to
the field value's *immediate element* when it has one (so it reaches
the innermost non-container only for single-level wrapping, and the
innermost node of a doubly-wrapped value is untouched); at dereference
time the namespace and inline key are transferred onto the innermost
non-container descendant through *every* level of `elems` wrapping. -/
theorem C5_metadata_placement :
    (∀ (st : DriverState) (v target : Value), v.sameAs ≠ "" →
       derefLoad st v.sameAs = some target →
       ∃ t, dereference st v = .ok (t, st) ∧
         (innermostByElems t).moduleNamespace = v.moduleNamespace ∧
         (innermostByElems t).moduleInlineKey = v.moduleInlineKey) ∧
    (∀ (tag : GoStructTag) (fr ev : Value), fr.elems = some ev →
       attachModInfo tag fr = fr.setElems (some (applyModTags tag ev)) ∧
       (attachModInfo tag fr).moduleNamespace = fr.moduleNamespace) ∧
    (∀ (tag : GoStructTag) (fr ev ev2 : Value), fr.elems = some ev →
       ev.elems = some ev2 →
       innermostByElems (attachModInfo tag fr) = innermostByElems ev2) := by
  refine ⟨?_, ?_, ?_⟩
  · intro st v target hs hload
    have hne : (v.sameAs == "") = false := by simp [hs]
    by_cases hd : v.doc = ""
    · refine ⟨setInnermostModInfo target v.moduleNamespace v.moduleInlineKey, ?_, ?_⟩
      · simp [dereference, hne, hload, hd]
      · exact innermostByElems_setInnermost target v.moduleNamespace v.moduleInlineKey
    · have hdb : (v.doc == "") = false := by simp [hd]
      refine ⟨(setInnermostModInfo target v.moduleNamespace v.moduleInlineKey).setDoc
        (v.doc ++ "\n\n" ++
          (setInnermostModInfo target v.moduleNamespace v.moduleInlineKey).doc),
        ?_, ?_⟩
      · simp [dereference, hne, hload, hdb]
      · have h1 := innermostByElems_setDoc
          (setInnermostModInfo target v.moduleNamespace v.moduleInlineKey)
          (v.doc ++ "\n\n" ++
            (setInnermostModInfo target v.moduleNamespace v.moduleInlineKey).doc)
        have h2 := innermostByElems_setInnermost target v.moduleNamespace
          v.moduleInlineKey
        exact ⟨h1.1.trans h2.1, h1.2.trans h2.2⟩
  · intro tag fr ev he
    have h1 : attachModInfo tag fr = fr.setElems (some (applyModTags tag ev)) := by
      simp [attachModInfo, he]
    exact ⟨h1, by rw [h1, Value.setElems_moduleNamespace]⟩
  · intro tag fr ev ev2 he he2
    have h1 : attachModInfo tag fr = fr.setElems (some (applyModTags tag ev)) := by
      simp [attachModInfo, he]
    rw [h1, innermostByElems_elems _ _ (Value.setElems_elems fr _),
      innermostByElems_elems _ _ (by rw [applyModTags_elems]; exact he2)]

/-- Claim C5 witness: dereferencing a namespaced placeholder whose
target is an array wrapping a `module` puts the namespace on the
innermost `module` node. -/
theorem C5_metadata_placement_witness :
    ∃ t, dereference c5wSt
        ((Value.placeholder "p.L").setModuleNamespace (some "x")) = .ok (t, c5wSt) ∧
      (innermostByElems t).moduleNamespace = some "x" ∧
      (innermostByElems t).moduleInlineKey = none :=
  C5_metadata_placement.1 c5wSt
    ((Value.placeholder "p.L").setModuleNamespace (some "x"))
    (Value.arrayOf (Value.ofType Ty.Module)) (by decide) rfl

/-! ### Claim C6 -/

/-- Claim C6: when the current value is a map or array, the traversal
loop descends into the element type and re-consumes the same path
segment against it, so container wrappers are invisible to path
addressing; in particular `items/name` on `{items: [ {name: string} ]}`
resolves to the `string` leaf with no index segment. -/
theorem C6_container_transparency :
    (∀ (f : Nat) (st : DriverState) (parts : List String) (i : Nat)
       (val nearest e : Value), i < parts.length → val.sameAs = "" →
       (val.type = Ty.Map ∨ val.type = Ty.Array) → val.elems = some e →
       traverseLoop (f+1) st parts i val nearest =
         traverseLoop f st parts i e (if e.typeName == "" then nearest else e)) ∧
    TraverseType 5 (DriverState.newSession [] []) "items/name" c6outer =
      .ok ((Value.ofType Ty.String, c6outer), DriverState.newSession [] []) := by
  constructor
  · intro f st parts i val nearest e hi hsame hty helems
    have hne : (val.sameAs == "") = true := by simp [hsame]
    rcases hty with hty | hty <;>
      simp [traverseLoop, traverseStep, hi, dereference, hne, hty, Ty.Map, Ty.Array,
        Ty.Struct, Ty.Module, Ty.ModuleMap, helems]
  · rfl

/-- Claim C6 witness: one loop iteration on an array value re-consumes
segment 0 against the element. -/
theorem C6_container_transparency_witness :
    traverseLoop 4 (DriverState.newSession [] []) ["x"] 0
      (Value.arrayOf (Value.ofType Ty.String)) c6outer =
    traverseLoop 3 (DriverState.newSession [] []) ["x"] 0
      (Value.ofType Ty.String) c6outer :=
  (C6_container_transparency.1 3 (DriverState.newSession [] []) ["x"] 0
    (Value.arrayOf (Value.ofType Ty.String)) c6outer (Value.ofType Ty.String)
    (by decide) rfl (Or.inr rfl) rfl).trans (by rfl)

/-! ### Claim C7 -/

/-- Claim C7 (counterexample): traversing a module value whose
namespace is `handlers` with segment `file_server`, when storage has
no implementation registered under `handlers.file_server`, makes the
code index `vals[0]` on an empty slice — a runtime panic, not the
NotFound-style error return the claim promises. -/
theorem C7_unregistered_module_panics :
    TraverseType 2 (DriverState.newSession [] []) "file_server"
      (((Value.ofType Ty.Module).setModuleNamespace (some "handlers")).setTypeName
        "p.M") =
    .error (.panicked "index out of range") := rfl

/-- Claim C7 (amended): the lookup identifier is
`namespace + "." + segment` when a non-empty namespace is set and the
bare segment otherwise; but when no implementation is registered under
that identifier (storage yields an empty candidate list, the
repository's missing-value convention), the traversal *panics* at
`vals[0]` instead of returning an error. -/
theorem C7_module_lookup :
    (∀ (v : Value) (part ns : String), v.moduleNamespace = some ns → ns ≠ "" →
      moduleLookupID v part = ns ++ "." ++ part) ∧
    (∀ (v : Value) (part : String),
      (v.moduleNamespace = none ∨ v.moduleNamespace = some "") →
      moduleLookupID v part = part) ∧
    (∀ (f : Nat) (st : DriverState) (parts : List String) (i : Nat)
       (val nearest : Value) (h : i < parts.length), val.sameAs = "" →
       (val.type = Ty.Module ∨ val.type = Ty.ModuleMap) →
       dbGetTypesByCaddyModuleID st (moduleLookupID val parts[i]) = [] →
       traverseLoop (f+1) st parts i val nearest =
         .error (.panicked "index out of range")) := by
  refine ⟨?_, ?_, ?_⟩
  · intro v part ns hns hne
    simp [moduleLookupID, hns, hne]
  · intro v part h
    rcases h with h | h <;> simp [moduleLookupID, h]
  · intro f st parts i val nearest h hsame hty hdb
    have hne : (val.sameAs == "") = true := by simp [hsame]
    rcases hty with hty | hty <;>
      simp [traverseLoop, traverseStep, h, dereference, hne, hty, Ty.Map, Ty.Array,
        Ty.Struct, Ty.Module, Ty.ModuleMap, hdb]

/-- Claim C7 witness: the namespaced identifier is computed and the
unregistered lookup panics on a concrete module value. -/
theorem C7_module_lookup_witness :
    (moduleLookupID
        ((Value.ofType Ty.Module).setModuleNamespace (some "handlers"))
        "file_server" = "handlers" ++ "." ++ "file_server") ∧
    traverseLoop 1 (DriverState.newSession [] []) ["file_server"] 0
      ((Value.ofType Ty.Module).setModuleNamespace (some "handlers")) Value.empty =
      .error (.panicked "index out of range") :=
  ⟨C7_module_lookup.1 ((Value.ofType Ty.Module).setModuleNamespace (some "handlers"))
      "file_server" "handlers" rfl (by decide),
   C7_module_lookup.2.2 0 (DriverState.newSession [] []) ["file_server"] 0
      ((Value.ofType Ty.Module).setModuleNamespace (some "handlers")) Value.empty
      (by decide) rfl (Or.inl rfl) rfl⟩

/-! ### Claim C9 -/

/-- Claim C9: dereferencing a value with a non-empty doc whose loaded
target also has a doc prepends the field-context doc: the result's doc
is exactly the field doc, a blank line, then the target's doc — both
kept, field doc first. -/
theorem C9_doc_merge (st : DriverState) (v target : Value)
    (hs : v.sameAs ≠ "") (hload : derefLoad st v.sameAs = some target)
    (hvd : v.doc ≠ "") (htd : target.doc ≠ "") :
    ∃ t, dereference st v = .ok (t, st) ∧
      t.doc = v.doc ++ "\n\n" ++ target.doc := by
  have hne : (v.sameAs == "") = false := by simp [hs]
  have hd : (v.doc == "") = false := by simp [hvd]
  clear htd
  refine ⟨(setInnermostModInfo target v.moduleNamespace v.moduleInlineKey).setDoc
      (v.doc ++ "\n\n" ++
        (setInnermostModInfo target v.moduleNamespace v.moduleInlineKey).doc),
      ?_, ?_⟩
  · simp [dereference, hne, hload, hd]
  · simp [Value.setDoc_doc, setInnermostModInfo_doc]

/-- Claim C9 witness: `"Used for X."` over target doc
`"A generic widget."` yields both strings in that order. -/
theorem C9_doc_merge_witness :
    ∃ t, dereference c9st c9ref = .ok (t, c9st) ∧
      t.doc = "Used for X." ++ "\n\n" ++ "A generic widget." :=
  C9_doc_merge c9st c9ref c9widget (by decide) rfl (by decide) (by decide)

/-! ### Claim C10 -/

/-- Claim C10: `TraverseType` fails when the start value has an empty
kind or an empty type name, and for the empty path it returns the start
value itself, unchanged, as both the exact value and the nearest named
type. -/
theorem C10_traverse_start (fuel : Nat) (st : DriverState) (path : String)
    (start : Value) :
    (start.type = "" ∨ start.typeName = "" →
      TraverseType fuel st path start = .error (.msg "must start at an actual type")) ∧
    (start.type ≠ "" → start.typeName ≠ "" →
      TraverseType fuel st "" start = .ok ((start, start), st)) := by
  constructor
  · intro h
    have hb : (start.type == "" || start.typeName == "") = true := by
      rcases h with h | h <;> simp [h]
    simp [TraverseType, hb]
  · intro h1 h2
    simp [TraverseType, h1, h2]

/-- Claim C10 witness: a typeless start errors; a valid start with the
empty path is returned unchanged. -/
theorem C10_traverse_start_witness :
    (TraverseType 3 (DriverState.newSession [] []) "a" (Value.ofType Ty.Bool) =
      .error (.msg "must start at an actual type")) ∧
    (TraverseType 3 (DriverState.newSession [] []) ""
        ((Value.ofType Ty.Bool).setTypeName "p.B") =
      .ok (((Value.ofType Ty.Bool).setTypeName "p.B",
            (Value.ofType Ty.Bool).setTypeName "p.B"), DriverState.newSession [] [])) :=
  ⟨(C10_traverse_start 3 (DriverState.newSession [] []) "a" (Value.ofType Ty.Bool)).1
      (Or.inr rfl),
   (C10_traverse_start 3 (DriverState.newSession [] []) ""
      ((Value.ofType Ty.Bool).setTypeName "p.B")).2 (by decide) (by decide)⟩

end Moduledoc

namespace Moduledoc

theorem find?_of_any_false {α : Type} (p : α → Bool) (l l2 : List α)
    (h : l.any p = false) : (l ++ l2).find? p = l2.find? p := by
  induction l with
  | nil => rfl
  | cons a l ih =>
    simp only [List.any_cons, Bool.or_eq_false_iff] at h
    simp [List.find?, h.1, ih h.2]

theorem find?_replace_self (l : List ((String × String × String) × Value))
    (k : String × String × String) (v : Value) (h : l.any (fun e => e.1 == k) = true) :
    (l.map (fun e => if e.1 == k then (k, v) else e)).find? (fun e => e.1 == k) =
      some (k, v) := by
  induction l with
  | nil => simp at h
  | cons a l ih =>
    by_cases ha : a.1 = k
    · have hrepl : (if a.1 == k then (k, v) else a) = (k, v) := by simp [ha]
      rw [List.map_cons, hrepl, List.find?_cons_of_pos]
      simp
    · have ha' : (a.1 == k) = false := by simp [ha]
      have hrepl : (if a.1 == k then (k, v) else a) = a := by simp [ha']
      rw [List.map_cons, hrepl, List.find?_cons_of_neg]
      · exact ih (by simpa [List.any_cons, ha'] using h)
      · simp [ha']

theorem dbGet_upsert_self (l : List ((String × String × String) × Value))
    (k : String × String × String) (v : Value) :
    (((upsertDb l k v).find? (fun e => e.1 == k)).map (·.2)) = some v := by
  unfold upsertDb
  by_cases h : l.any (fun e => e.1 == k) = true
  · simp only [h, if_true]
    rw [find?_replace_self l k v h]
    rfl
  · have h' : l.any (fun e => e.1 == k) = false := by
      cases hb : l.any (fun e => e.1 == k)
      · rfl
      · exact absurd hb h
    simp only [h', Bool.false_eq_true, if_false]
    rw [find?_of_any_false _ l [(k, v)] h']
    simp [List.find?]

/-- Claim C2: a named type that is not yet in the session's discovered
set, not present in storage, and not `encoding/json.RawMessage` is, on a
successful build, committed to both the discovered set and storage as
the fully-expanded node (type-name qualified, doc attached), and the
value returned to the caller is a placeholder referencing the stored
name-plus-version identity, never the expanded node itself. -/
theorem C2_commit_and_placeholder (f : Nat) (env : TypeEnv) (st : DriverState)
    (id : String) (nt : NamedType) (v : Value) (st' : DriverState)
    (henv : envLookup env id = some nt)
    (hdisc : discLookup st (sameAsKey nt) = none)
    (hdb : dbGetTypeByName st nt.pkg nt.name nt.version = none)
    (hraw : ¬(nt.pkg = "encoding/json" ∧ nt.name = "RawMessage"))
    (hok : buildRep f env st (.named id) = .ok (v, st')) :
    v = Value.placeholder (sameAsKey nt) ∧
    ∃ rep, discLookup st' (sameAsKey nt) = some rep ∧
      dbGetTypeByName st' nt.pkg nt.name nt.version = some rep ∧
      rep.typeName = fullyQualifiedTypeName nt ∧
      v.typeName = "" ∧ v.type = "" ∧ v.structFields = [] := by
  match f with
  | 0 => exact absurd hok (by simp [buildRep])
  | f + 1 =>
    have hrawb : (nt.pkg == "encoding/json" && nt.name == "RawMessage") = false := by
      by_cases h1 : nt.pkg = "encoding/json"
      · by_cases h2 : nt.name = "RawMessage"
        · exact absurd ⟨h1, h2⟩ hraw
        · simp [h2]
      · simp [h1]
    simp only [buildRep, henv, hdisc, hdb, hrawb, Bool.false_eq_true, if_false] at hok
    cases hE : buildUnderlying f env st nt.underlying nt.fieldGodocs with
    | error e => rw [hE] at hok; exact absurd hok (by simp)
    | ok p =>
      obtain ⟨rep0, st1⟩ := p
      rw [hE] at hok
      simp only [Except.ok.injEq, Prod.mk.injEq] at hok
      obtain ⟨hv, hst⟩ := hok
      subst hv
      subst hst
      refine ⟨rfl, (rep0.setDoc nt.godoc).setTypeName (fullyQualifiedTypeName nt),
        ?_, ?_, ?_, rfl, rfl, rfl⟩
      · simp [discLookup, dbStoreType, List.find?]
      · simp only [dbGetTypeByName, dbStoreType]
        exact dbGet_upsert_self st1.dbTypes (nt.pkg, nt.name, nt.version) _
      · cases rep0; rfl

/-- Claim C2 witness: building `p.B@v1` (an int alias) at fuel 3 stores
the expanded node under both indices and returns the placeholder. -/
theorem C2_witness :
    Value.placeholder "p.B@v1" = Value.placeholder (sameAsKey c2nt) ∧
    ∃ rep, discLookup
        (match buildRep 3 c2env (DriverState.newSession [] []) (.named "B") with
         | .ok (_, st) => st
         | _ => DriverState.newSession [] []) (sameAsKey c2nt) = some rep ∧
      dbGetTypeByName
        (match buildRep 3 c2env (DriverState.newSession [] []) (.named "B") with
         | .ok (_, st) => st
         | _ => DriverState.newSession [] []) c2nt.pkg c2nt.name c2nt.version =
        some rep ∧
      rep.typeName = fullyQualifiedTypeName c2nt ∧
      (Value.placeholder "p.B@v1").typeName = "" ∧
      (Value.placeholder "p.B@v1").type = "" ∧
      (Value.placeholder "p.B@v1").structFields = [] :=
  C2_commit_and_placeholder 3 c2env (DriverState.newSession [] []) "B" c2nt
    (Value.placeholder "p.B@v1") _ rfl rfl rfl (by decide) rfl

end Moduledoc

namespace Moduledoc

theorem upsert_keys_nodup (l : List ((String × String × String) × Value))
    (k : String × String × String) (v : Value)
    (h : (l.map (fun e => e.1)).Nodup) :
    ((upsertDb l k v).map (fun e => e.1)).Nodup := by
  unfold upsertDb
  by_cases ha : l.any (fun e => e.1 == k) = true
  · simp only [ha, if_true]
    have : (l.map (fun e => if e.1 == k then (k, v) else e)).map (fun e => e.1) =
        l.map (fun e => e.1) := by
      rw [List.map_map]
      apply List.map_congr_left
      intro e _
      by_cases he : e.1 = k
      · simp [he]
      · simp [he]
    rw [this]
    exact h
  · have ha' : l.any (fun e => e.1 == k) = false := by
      cases hb : l.any (fun e => e.1 == k)
      · rfl
      · exact absurd hb ha
    simp only [ha', Bool.false_eq_true, if_false, List.map_append, List.map_cons,
      List.map_nil]
    rw [List.nodup_append]
    refine ⟨h, List.nodup_singleton k, ?_⟩
    intro x hx hk
    simp only [List.mem_singleton] at hk
    subst hk
    simp only [List.mem_map] at hx
    obtain ⟨e, he, hek⟩ := hx
    rw [List.any_eq_false] at ha'
    have := ha' e he
    simp only [beq_iff_eq] at this
    exact this hek

theorem filter_length_one (l : List ((String × String × String) × Value))
    (k : String × String × String) (x : (String × String × String) × Value)
    (hnd : (l.map (fun e => e.1)).Nodup)
    (hf : l.find? (fun e => e.1 == k) = some x) :
    (l.filter (fun e => e.1 == k)).length = 1 := by
  induction l with
  | nil => simp at hf
  | cons a l ih =>
    simp only [List.map_cons, List.nodup_cons] at hnd
    by_cases ha : a.1 = k
    · have hfilter : l.filter (fun e => e.1 == k) = [] := by
        rw [List.filter_eq_nil_iff]
        intro e he
        simp only [beq_iff_eq]
        intro hek
        exact hnd.1 (by
          rw [← ha] at hek
          exact List.mem_map.mpr ⟨e, he, hek.symm ▸ rfl⟩)
      simp [List.filter_cons, ha, hfilter]
    · have ha' : (a.1 == k) = false := by simp [ha]
      rw [List.find?_cons_of_neg _ (by simp [ha'])] at hf
      simp only [List.filter_cons, ha', Bool.false_eq_true, if_false]
      exact ih hnd.2 hf
end Moduledoc

namespace Moduledoc

theorem dereference_state (st : DriverState) (v r : Value) (st' : DriverState)
    (h : dereference st v = .ok (r, st')) : st' = st := by
  unfold dereference at h
  by_cases hs : (v.sameAs == "") = true
  · rw [if_pos hs] at h
    simp only [Except.ok.injEq, Prod.mk.injEq] at h
    exact h.2.symm
  · rw [if_neg hs] at h
    cases hl : derefLoad st v.sameAs with
    | none => rw [hl] at h; simp at h
    | some typ =>
      rw [hl] at h
      simp only [Except.ok.injEq, Prod.mk.injEq] at h
      exact h.2.symm

theorem build_preserves_nodup : ∀ f : Nat,
    (∀ env st t v st', buildRep f env st t = .ok (v, st') →
        DbKeysNodup st → DbKeysNodup st') ∧
    (∀ env st u docs v st', buildUnderlying f env st u docs = .ok (v, st') →
        DbKeysNodup st → DbKeysNodup st') ∧
    (∀ env st fields docs sfs st',
        buildNamedFields f env st fields docs = .ok (sfs, st') →
        DbKeysNodup st → DbKeysNodup st') ∧
    (∀ env st fields sfs st', buildAnonFields f env st fields = .ok (sfs, st') →
        DbKeysNodup st → DbKeysNodup st') := by
  intro f
  induction f using Nat.strong_induction_on with
  | _ f ih =>
    match f with
    | 0 =>
      refine ⟨?_, ?_, ?_, ?_⟩
      · intro env st t v st' hok _
        simp [buildRep] at hok
      · intro env st u docs v st' hok _
        simp [buildUnderlying] at hok
      · intro env st fields docs sfs st' hok _
        simp [buildNamedFields] at hok
      · intro env st fields sfs st' hok _
        simp [buildAnonFields] at hok
    | f + 1 =>
      have hR := (ih f (by omega)).1
      have hU := (ih f (by omega)).2.1
      have hN := (ih f (by omega)).2.2.1
      have hA := (ih f (by omega)).2.2.2
      refine ⟨?_, ?_, ?_, ?_⟩
      · intro env st t v st' hok hnd
        cases t with
        | interfaceType =>
          simp only [buildRep, Except.ok.injEq, Prod.mk.injEq] at hok
          obtain ⟨h1, h2⟩ := hok
          subst h2; exact hnd
        | pointer elem =>
          simp only [buildRep] at hok
          exact hR env st elem v st' hok hnd
        | basic k =>
          cases k <;> simp [buildRep] at hok <;>
            (obtain ⟨h1, h2⟩ := hok; subst h2; exact hnd)
        | named id =>
          simp only [buildRep] at hok
          cases henv : envLookup env id with
          | none => simp [henv] at hok
          | some nt =>
            simp only [henv] at hok
            cases hdisc : discLookup st (sameAsKey nt) with
            | some w =>
              simp only [hdisc, Except.ok.injEq, Prod.mk.injEq] at hok
              obtain ⟨h1, h2⟩ := hok
              subst h2; exact hnd
            | none =>
              simp only [hdisc] at hok
              cases hdbv : dbGetTypeByName st nt.pkg nt.name nt.version with
              | some d =>
                simp only [hdbv, Except.ok.injEq, Prod.mk.injEq] at hok
                obtain ⟨h1, h2⟩ := hok
                subst h2; exact hnd
              | none =>
                simp only [hdbv] at hok
                by_cases hrawb :
                    (nt.pkg == "encoding/json" && nt.name == "RawMessage") = true
                · simp only [hrawb, if_true, Except.ok.injEq, Prod.mk.injEq] at hok
                  obtain ⟨h1, h2⟩ := hok
                  subst h2; exact hnd
                · rw [if_neg hrawb] at hok
                  cases hE : buildUnderlying f env st nt.underlying nt.fieldGodocs with
                  | error e => simp [hE] at hok
                  | ok p =>
                    obtain ⟨rep, st1⟩ := p
                    simp only [hE, Except.ok.injEq, Prod.mk.injEq] at hok
                    obtain ⟨h1, h2⟩ := hok
                    subst h2
                    exact upsert_keys_nodup st1.dbTypes (nt.pkg, nt.name, nt.version) _
                      (hU env st nt.underlying nt.fieldGodocs rep st1 hE hnd)
        | structType fields =>
          simp only [buildRep] at hok
          cases hE : buildAnonFields f env st fields with
          | error e => simp [hE] at hok
          | ok p =>
            obtain ⟨sfs, st1⟩ := p
            simp only [hE, Except.ok.injEq, Prod.mk.injEq] at hok
            obtain ⟨h1, h2⟩ := hok
            subst h2
            exact hA env st fields sfs st1 hE hnd
        | slice elem =>
          simp only [buildRep] at hok
          cases hE : buildRep f env st elem with
          | error e => simp [hE] at hok
          | ok p =>
            obtain ⟨er, st1⟩ := p
            simp only [hE, Except.ok.injEq, Prod.mk.injEq] at hok
            obtain ⟨h1, h2⟩ := hok
            subst h2
            exact hR env st elem er st1 hE hnd
        | mapType key elem =>
          simp only [buildRep] at hok
          cases hK : buildRep f env st key with
          | error e => simp [hK] at hok
          | ok p =>
            obtain ⟨kr, st1⟩ := p
            simp only [hK] at hok
            cases hE : buildRep f env st1 elem with
            | error e => simp [hE] at hok
            | ok q =>
              obtain ⟨er, st2⟩ := q
              simp only [hE] at hok
              have h2 := hR env st1 elem er st2 hE (hR env st key kr st1 hK hnd)
              by_cases hmm : (kr.type == Ty.String && er.type == Ty.Module) = true
              · simp only [hmm, if_true, Except.ok.injEq, Prod.mk.injEq] at hok
                obtain ⟨ha, hb⟩ := hok
                subst hb; exact h2
              · rw [if_neg hmm] at hok
                simp only [Except.ok.injEq, Prod.mk.injEq] at hok
                obtain ⟨ha, hb⟩ := hok
                subst hb; exact h2
        | otherType desc => simp [buildRep] at hok
      · intro env st u docs v st' hok hnd
        cases u with
        | structType fields =>
          simp only [buildUnderlying] at hok
          cases hE : buildNamedFields f env st fields docs with
          | error e => simp [hE] at hok
          | ok p =>
            obtain ⟨sfs, st1⟩ := p
            simp only [hE, Except.ok.injEq, Prod.mk.injEq] at hok
            obtain ⟨h1, h2⟩ := hok
            subst h2
            exact hN env st fields docs sfs st1 hE hnd
        | interfaceType => exact hR env st _ v st' hok hnd
        | pointer elem => exact hR env st _ v st' hok hnd
        | basic k => exact hR env st _ v st' hok hnd
        | named id => exact hR env st _ v st' hok hnd
        | slice elem => exact hR env st _ v st' hok hnd
        | mapType key elem => exact hR env st _ v st' hok hnd
        | otherType desc => exact hR env st _ v st' hok hnd
      · intro env st fields docs sfs st' hok hnd
        cases fields with
        | nil =>
          simp only [buildNamedFields, Except.ok.injEq, Prod.mk.injEq] at hok
          obtain ⟨h1, h2⟩ := hok
          subst h2; exact hnd
        | cons field rest =>
          simp only [buildNamedFields] at hok
          by_cases hexp : field.exported = true
          · simp only [hexp, Bool.not_true, Bool.false_eq_true, if_false] at hok
            by_cases hjn : (!(jsonNameFromTag field.tag).2 ||
                ((jsonNameFromTag field.tag).1 == "" && !field.embedded)) = true
            · simp only [hjn, if_true] at hok
              exact hN env st rest docs sfs st' hok hnd
            · rw [if_neg hjn] at hok
              cases hF : buildRep f env st field.type with
              | error e => simp [hF] at hok
              | ok p =>
                obtain ⟨fieldRep, st1⟩ := p
                simp only [hF] at hok
                have h1 := hR env st field.type fieldRep st1 hF hnd
                by_cases hemb : field.embedded = true
                · simp only [hemb, if_true] at hok
                  cases hD : dereference st1 (attachModInfo field.tag fieldRep) with
                  | error e => simp [hD] at hok
                  | ok q =>
                    obtain ⟨embedded, st2⟩ := q
                    simp only [hD] at hok
                    have h2 : st2 = st1 := dereference_state st1 _ embedded st2 hD
                    cases hRest : buildNamedFields f env st2 rest docs with
                    | error e => simp [hRest] at hok
                    | ok q2 =>
                      obtain ⟨sfs2, st3⟩ := q2
                      simp only [hRest, Except.ok.injEq, Prod.mk.injEq] at hok
                      obtain ⟨ha, hb⟩ := hok
                      subst hb
                      exact hN env st2 rest docs sfs2 st3 hRest (h2 ▸ h1)
                · simp only [hemb, if_false, Bool.false_eq_true] at hok
                  cases hRest : buildNamedFields f env st1 rest docs with
                  | error e => simp [hRest] at hok
                  | ok q2 =>
                    obtain ⟨sfs2, st3⟩ := q2
                    simp only [hRest, Except.ok.injEq, Prod.mk.injEq] at hok
                    obtain ⟨ha, hb⟩ := hok
                    subst hb
                    exact hN env st1 rest docs sfs2 st3 hRest h1
          · have hexp' : field.exported = false := by
              cases hb : field.exported
              · rfl
              · exact absurd hb hexp
            simp only [hexp', Bool.not_false, if_true] at hok
            exact hN env st rest docs sfs st' hok hnd
      · intro env st fields sfs st' hok hnd
        cases fields with
        | nil =>
          simp only [buildAnonFields, Except.ok.injEq, Prod.mk.injEq] at hok
          obtain ⟨h1, h2⟩ := hok
          subst h2; exact hnd
        | cons field rest =>
          simp only [buildAnonFields] at hok
          by_cases hjn : (jsonNameFromTag field.tag).2 = true
          · simp only [hjn, Bool.not_true, Bool.false_eq_true, if_false] at hok
            cases hF : buildRep f env st field.type with
            | error e => simp [hF] at hok
            | ok p =>
              obtain ⟨fieldRep, st1⟩ := p
              simp only [hF] at hok
              have h1 := hR env st field.type fieldRep st1 hF hnd
              by_cases hemb : field.embedded = true
              · simp only [hemb, if_true] at hok
                cases hRest : buildAnonFields f env st1 rest with
                | error e => simp [hRest] at hok
                | ok q2 =>
                  obtain ⟨sfs2, st3⟩ := q2
                  simp only [hRest, Except.ok.injEq, Prod.mk.injEq] at hok
                  obtain ⟨ha, hb⟩ := hok
                  subst hb
                  exact hA env st1 rest sfs2 st3 hRest h1
              · simp only [hemb, if_false, Bool.false_eq_true] at hok
                cases hRest : buildAnonFields f env st1 rest with
                | error e => simp [hRest] at hok
                | ok q2 =>
                  obtain ⟨sfs2, st3⟩ := q2
                  simp only [hRest, Except.ok.injEq, Prod.mk.injEq] at hok
                  obtain ⟨ha, hb⟩ := hok
                  subst hb
                  exact hA env st1 rest sfs2 st3 hRest h1
          · have hjn' : (jsonNameFromTag field.tag).2 = false := by
              cases hb : (jsonNameFromTag field.tag).2
              · rfl
              · exact absurd hb hjn
            simp only [hjn', Bool.not_false, if_true] at hok
            exact hA env st rest sfs st' hok hnd

end Moduledoc

namespace Moduledoc

/-- Claim C3: building the same `(package, type, version)` identity a
second time within one session returns a placeholder immediately (one
fuel step suffices, at any budget), and storage holds exactly one entry
for that identity across both calls. -/
theorem C3_idempotent_build (f g : Nat) (env : TypeEnv) (st : DriverState)
    (id : String) (nt : NamedType) (v : Value) (st1 : DriverState)
    (henv : envLookup env id = some nt)
    (hdisc : discLookup st (sameAsKey nt) = none)
    (hdb : dbGetTypeByName st nt.pkg nt.name nt.version = none)
    (hraw : ¬(nt.pkg = "encoding/json" ∧ nt.name = "RawMessage"))
    (hnd : DbKeysNodup st)
    (hok : buildRep f env st (.named id) = .ok (v, st1)) :
    buildRep (g+1) env st1 (.named id) =
      .ok (Value.placeholder (sameAsKey nt), st1) ∧
    (st1.dbTypes.filter
        (fun e => e.1 == (nt.pkg, nt.name, nt.version))).length = 1 := by
  match f with
  | 0 => exact absurd hok (by simp [buildRep])
  | f + 1 =>
    have hrawb : (nt.pkg == "encoding/json" && nt.name == "RawMessage") = false := by
      by_cases h1 : nt.pkg = "encoding/json"
      · by_cases h2 : nt.name = "RawMessage"
        · exact absurd ⟨h1, h2⟩ hraw
        · simp [h2]
      · simp [h1]
    simp only [buildRep, henv, hdisc, hdb, hrawb, Bool.false_eq_true, if_false] at hok
    cases hE : buildUnderlying f env st nt.underlying nt.fieldGodocs with
    | error e => rw [hE] at hok; exact absurd hok (by simp)
    | ok p =>
      obtain ⟨rep0, stMid⟩ := p
      rw [hE] at hok
      simp only [Except.ok.injEq, Prod.mk.injEq] at hok
      obtain ⟨hv, hst⟩ := hok
      subst hst
      have hndMid : DbKeysNodup stMid :=
        (build_preserves_nodup f).2.1 env st nt.underlying nt.fieldGodocs rep0 stMid
          hE hnd
      constructor
      · have hd1 : discLookup
            (dbStoreType
              { stMid with
                discoveredTypes :=
                  (sameAsKey nt, (rep0.setDoc nt.godoc).setTypeName
                    (fullyQualifiedTypeName nt)) :: stMid.discoveredTypes }
              nt.pkg nt.name nt.version
              ((rep0.setDoc nt.godoc).setTypeName (fullyQualifiedTypeName nt)))
            (sameAsKey nt) =
            some ((rep0.setDoc nt.godoc).setTypeName (fullyQualifiedTypeName nt)) := by
          simp [discLookup, dbStoreType, List.find?]
        simp only [buildRep, henv, hd1]
      · have hget := dbGet_upsert_self stMid.dbTypes (nt.pkg, nt.name, nt.version)
          ((rep0.setDoc nt.godoc).setTypeName (fullyQualifiedTypeName nt))
        rw [Option.map_eq_some'] at hget
        obtain ⟨x, hx, _⟩ := hget
        exact filter_length_one _ _ x
          (upsert_keys_nodup stMid.dbTypes (nt.pkg, nt.name, nt.version) _ hndMid) hx

/-- Claim C3 witness: after building `p.B@v1` once, a second build
returns the placeholder and the store has a single `p.B@v1` entry. -/
theorem C3_witness :
    buildRep 4 c3env c3st (.named "B") =
      .ok (Value.placeholder (sameAsKey c3nt), c3st) ∧
    (c3st.dbTypes.filter
        (fun e => e.1 == (c3nt.pkg, c3nt.name, c3nt.version))).length = 1 :=
  C3_idempotent_build 3 3 c3env (DriverState.newSession [] []) "B" c3nt
    (Value.placeholder "p.B@v1") _ rfl rfl rfl (by decide) List.nodup_nil rfl

end Moduledoc

namespace Moduledoc

theorem deepDeref_state_all : ∀ f : Nat,
    (∀ st v r st', deepDereference f st v = .ok (r, st') → st' = st) ∧
    (∀ st sfs r st', deepDerefFields f st sfs = .ok (r, st') → st' = st) ∧
    (∀ st v r st', deepDerefMapKeys f st v = .ok (r, st') → st' = st) ∧
    (∀ st v r st', deepDerefElems f st v = .ok (r, st') → st' = st) := by
  intro f
  induction f using Nat.strong_induction_on with
  | _ f ih =>
    match f with
    | 0 =>
      refine ⟨?_, ?_, ?_, ?_⟩ <;> intro st x r st' hok <;>
        simp [deepDereference, deepDerefFields, deepDerefMapKeys,
          deepDerefElems] at hok
    | f + 1 =>
      have hD := (ih f (by omega)).1
      have hF := (ih f (by omega)).2.1
      have hM := (ih f (by omega)).2.2.1
      have hE := (ih f (by omega)).2.2.2
      refine ⟨?_, ?_, ?_, ?_⟩
      · intro st v r st' hok
        simp only [deepDereference] at hok
        cases hd : dereference st v with
        | error e => simp [hd] at hok
        | ok p =>
          obtain ⟨v1, st1⟩ := p
          simp only [hd] at hok
          cases hf : deepDerefFields f st1 v1.structFields with
          | error e => simp [hf] at hok
          | ok q =>
            obtain ⟨sfs, st2⟩ := q
            simp only [hf] at hok
            cases hm : deepDerefMapKeys f st2 (v1.setStructFields sfs) with
            | error e => simp [hm] at hok
            | ok q2 =>
              obtain ⟨v2, st3⟩ := q2
              simp only [hm] at hok
              have e4 := hE st3 v2 r st' hok
              have e3 := hM st2 (v1.setStructFields sfs) v2 st3 hm
              have e2 := hF st1 v1.structFields sfs st2 hf
              have e1 := dereference_state st v v1 st1 hd
              exact e4.trans (e3.trans (e2.trans e1))
      · intro st sfs r st' hok
        cases sfs with
        | nil =>
          simp only [deepDerefFields, Except.ok.injEq, Prod.mk.injEq] at hok
          exact hok.2.symm
        | cons sf rest =>
          simp only [deepDerefFields] at hok
          cases hd : deepDereference f st sf.value with
          | error e => simp [hd] at hok
          | ok p =>
            obtain ⟨v1, st1⟩ := p
            simp only [hd] at hok
            cases v1 with
            | mk t n fl k e d s ns ik =>
              cases e with
              | none =>
                simp only at hok
                cases hrest : deepDerefFields f st1 rest with
                | error e2 => simp [hrest] at hok
                | ok q =>
                  obtain ⟨sfs2, st2⟩ := q
                  simp only [hrest, Except.ok.injEq, Prod.mk.injEq] at hok
                  rw [← hok.2]
                  rw [hF st1 rest sfs2 st2 hrest]
                  exact hD st sf.value _ st1 hd
              | some ev =>
                simp only at hok
                cases hrest : deepDerefFields f st1 rest with
                | error e2 => simp [hrest] at hok
                | ok q =>
                  obtain ⟨sfs2, st2⟩ := q
                  simp only [hrest, Except.ok.injEq, Prod.mk.injEq] at hok
                  rw [← hok.2]
                  rw [hF st1 rest sfs2 st2 hrest]
                  exact hD st sf.value _ st1 hd
      · intro st v r st' hok
        simp only [deepDerefMapKeys] at hok
        cases hmk : v.mapKeys with
        | none =>
          simp only [hmk, Except.ok.injEq, Prod.mk.injEq] at hok
          exact hok.2.symm
        | some mk0 =>
          simp only [hmk] at hok
          cases hd : deepDereference f st mk0 with
          | error e => simp [hd] at hok
          | ok p =>
            obtain ⟨m1, st1⟩ := p
            simp only [hd, Except.ok.injEq, Prod.mk.injEq] at hok
            rw [← hok.2]
            exact hD st mk0 m1 st1 hd
      · intro st v r st' hok
        simp only [deepDerefElems] at hok
        cases hel : v.elems with
        | none =>
          simp only [hel, Except.ok.injEq, Prod.mk.injEq] at hok
          exact hok.2.symm
        | some e0 =>
          simp only [hel] at hok
          cases hd : deepDereference f st e0 with
          | error e => simp [hd] at hok
          | ok p =>
            obtain ⟨e1, st1⟩ := p
            simp only [hd, Except.ok.injEq, Prod.mk.injEq] at hok
            rw [← hok.2]
            exact hD st e0 e1 st1 hd

theorem traverseLoop_state : ∀ (f : Nat) (st : DriverState) (parts : List String)
    (i : Nat) (val nearest : Value) (r : (Value × Value)) (st' : DriverState),
    traverseLoop f st parts i val nearest = .ok (r, st') → st' = st := by
  intro f
  induction f with
  | zero => intro st parts i val nearest r st' hok; simp [traverseLoop] at hok
  | succ f ihf =>
    intro st parts i val nearest r st' hok
    simp only [traverseLoop] at hok
    by_cases h : i < parts.length
    · rw [dif_pos h] at hok
      cases hd : dereference st val with
      | error e => simp [hd] at hok
      | ok p =>
        obtain ⟨v1, st1⟩ := p
        simp only [hd] at hok
        cases hs : traverseStep st1 parts i (parts.get ⟨i, h⟩) v1 with
        | error e => rw [hs] at hok; exact absurd hok (by simp)
        | ok q =>
          obtain ⟨v2, i2⟩ := q
          rw [hs] at hok
          rw [ihf st1 parts i2 v2 _ r st' hok]
          exact dereference_state st val v1 st1 hd
    · rw [dif_neg h] at hok
      simp only [Except.ok.injEq, Prod.mk.injEq] at hok
      exact hok.2.symm

theorem TraverseType_state (f : Nat) (st : DriverState) (path : String)
    (s : Value) (r : (Value × Value)) (st' : DriverState)
    (hok : TraverseType f st path s = .ok (r, st')) : st' = st := by
  unfold TraverseType at hok
  by_cases h1 : (s.type == "" || s.typeName == "") = true
  · rw [if_pos h1] at hok; simp at hok
  · rw [if_neg h1] at hok
    by_cases h2 : (path == "") = true
    · rw [if_pos h2] at hok
      simp only [Except.ok.injEq, Prod.mk.injEq] at hok
      exact hok.2.symm
    · rw [if_neg h2] at hok
      exact traverseLoop_state f st (ConfigPathParts path) 0 s s r st' hok

end Moduledoc

namespace Moduledoc

/-- Claim C8: the query operations are read-only: `dereference`,
`deepDereference` and `TraverseType` return their driver state
unchanged, so a repeated query over the same graph observes the
identical result. -/
theorem C8_queries_readonly :
    (∀ st v r st', dereference st v = .ok (r, st') → st' = st) ∧
    (∀ f st v r st', deepDereference f st v = .ok (r, st') → st' = st) ∧
    (∀ f st path s r st', TraverseType f st path s = .ok (r, st') → st' = st) ∧
    (∀ f st path s r st', TraverseType f st path s = .ok (r, st') →
       TraverseType f st' path s = .ok (r, st')) ∧
    (∀ f st v r st', deepDereference f st v = .ok (r, st') →
       deepDereference f st' v = .ok (r, st')) := by
  refine ⟨dereference_state, ?_, TraverseType_state, ?_, ?_⟩
  · intro f st v r st' hok
    exact (deepDeref_state_all f).1 st v r st' hok
  · intro f st path s r st' hok
    rw [TraverseType_state f st path s r st' hok]
    rw [TraverseType_state f st path s r st' hok] at hok
    exact hok
  · intro f st v r st' hok
    rw [(deepDeref_state_all f).1 st v r st' hok]
    rw [(deepDeref_state_all f).1 st v r st' hok] at hok
    exact hok

/-- Claim C8 witness: read-only-ness and repeatability instantiated at
a concrete traversal over the one-entry widget storage. -/
theorem C8_witness :
    ((DriverState.newSession [] [] : DriverState) =
        DriverState.newSession [] [] ∧
      TraverseType 1 (DriverState.newSession [] []) ""
        ((Value.ofType Ty.Bool).setTypeName "p.B") =
        .ok (((Value.ofType Ty.Bool).setTypeName "p.B",
              (Value.ofType Ty.Bool).setTypeName "p.B"),
             DriverState.newSession [] [])) ∧
    (DriverState.newSession [] [] : DriverState) = DriverState.newSession [] [] :=
  ⟨⟨C8_queries_readonly.2.2.1 1 (DriverState.newSession [] []) ""
      ((Value.ofType Ty.Bool).setTypeName "p.B")
      ((Value.ofType Ty.Bool).setTypeName "p.B",
        (Value.ofType Ty.Bool).setTypeName "p.B")
      (DriverState.newSession [] []) rfl,
    C8_queries_readonly.2.2.2.1 1 (DriverState.newSession [] []) ""
      ((Value.ofType Ty.Bool).setTypeName "p.B")
      ((Value.ofType Ty.Bool).setTypeName "p.B",
        (Value.ofType Ty.Bool).setTypeName "p.B")
      (DriverState.newSession [] []) rfl⟩,
   C8_queries_readonly.2.1 2 (DriverState.newSession [] []) Value.empty
     Value.empty (DriverState.newSession [] []) rfl⟩

end Moduledoc

namespace Moduledoc

theorem deepDereference_succ (f : Nat) (st : DriverState) (val : Value) :
    deepDereference (f+1) st val =
      match dereference st val with
      | .error e => .error e
      | .ok (val, st) =>
        match deepDerefFields f st val.structFields with
        | .error e => .error e
        | .ok (sfs, st) =>
          match deepDerefMapKeys f st (val.setStructFields sfs) with
          | .error e => .error e
          | .ok (val, st) => deepDerefElems f st val := rfl

theorem deepDerefFields_succ (f : Nat) (st : DriverState) (sf : StructField)
    (rest : List StructField) :
    deepDerefFields (f+1) st (sf :: rest) =
      match deepDereference f st sf.value with
      | .error e => .error e
      | .ok (v, st) =>
        let merged : Value × String :=
          match v with
          | .mk t n fl k (some ev) d s ns ik =>
            let ev := if sf.doc == "" then ev
                      else ev.setDoc (trimSpace (sf.doc ++ "\n\n" ++ ev.doc))
            (.mk t n fl k (some ev) d s ns ik, ev.doc)
          | .mk t n fl k none d s ns ik =>
            let d := if sf.doc == "" then d else trimSpace (sf.doc ++ "\n\n" ++ d)
            (.mk t n fl k none d s ns ik, d)
        let sfDoc := if merged.2 == "" then sf.doc else merged.2
        match deepDerefFields f st rest with
        | .error e => .error e
        | .ok (sfs2, st) => .ok ((sf.key, merged.1, sfDoc) :: sfs2, st) := rfl

theorem deepDerefMapKeys_succ (f : Nat) (st : DriverState) (val : Value) :
    deepDerefMapKeys (f+1) st val =
      match val.mapKeys with
      | none => .ok (val, st)
      | some mk0 =>
        match deepDereference f st mk0 with
        | .error e => .error e
        | .ok (mk1, st) => .ok (val.setMapKeys (some mk1), st) := rfl

theorem deepDerefElems_succ (f : Nat) (st : DriverState) (val : Value) :
    deepDerefElems (f+1) st val =
      match val.elems with
      | none => .ok (val, st)
      | some e0 =>
        match deepDereference f st e0 with
        | .error e => .error e
        | .ok (e1, st) => .ok (val.setElems (some e1), st) := rfl

theorem deepDeref_mono : ∀ f : Nat,
    (∀ st v r, deepDereference f st v = r → r ≠ .error .outOfFuel →
        deepDereference (f+1) st v = r) ∧
    (∀ st sfs r, deepDerefFields f st sfs = r → r ≠ .error .outOfFuel →
        deepDerefFields (f+1) st sfs = r) ∧
    (∀ st v r, deepDerefMapKeys f st v = r → r ≠ .error .outOfFuel →
        deepDerefMapKeys (f+1) st v = r) ∧
    (∀ st v r, deepDerefElems f st v = r → r ≠ .error .outOfFuel →
        deepDerefElems (f+1) st v = r) := by
  intro f
  induction f using Nat.strong_induction_on with
  | _ f ih =>
    match f with
    | 0 =>
      refine ⟨?_, ?_, ?_, ?_⟩ <;> intro st x r hr hne <;>
        exact absurd hr.symm (by simpa [deepDereference, deepDerefFields,
          deepDerefMapKeys, deepDerefElems] using hne)
    | f + 1 =>
      have hD := (ih f (by omega)).1
      have hF := (ih f (by omega)).2.1
      have hM := (ih f (by omega)).2.2.1
      have hE := (ih f (by omega)).2.2.2
      refine ⟨?_, ?_, ?_, ?_⟩
      · intro st v r hr hne
        rw [deepDereference_succ] at hr
        rw [deepDereference_succ]
        cases hd : dereference st v with
        | error e => simp only [hd] at hr ⊢; exact hr
        | ok p =>
          obtain ⟨v1, st1⟩ := p
          simp only [hd] at hr ⊢
          cases hfld : deepDerefFields f st1 v1.structFields with
          | error e =>
            simp only [hfld] at hr
            have he : e ≠ .outOfFuel := by intro h; subst h; exact hne hr.symm
            simp only [hF st1 v1.structFields _ hfld (by simp [he])]
            exact hr
          | ok q =>
            obtain ⟨sfs, st2⟩ := q
            simp only [hfld] at hr
            simp only [hF st1 v1.structFields _ hfld (by simp)]
            cases hmk : deepDerefMapKeys f st2 (v1.setStructFields sfs) with
            | error e =>
              simp only [hmk] at hr
              have he : e ≠ .outOfFuel := by intro h; subst h; exact hne hr.symm
              simp only [hM st2 (v1.setStructFields sfs) _ hmk (by simp [he])]
              exact hr
            | ok q2 =>
              obtain ⟨v2, st3⟩ := q2
              simp only [hmk] at hr
              simp only [hM st2 (v1.setStructFields sfs) _ hmk (by simp)]
              exact hE st3 v2 r hr hne
      · intro st sfs r hr hne
        cases sfs with
        | nil => simpa [deepDerefFields] using hr
        | cons sf rest =>
          rw [deepDerefFields_succ] at hr
          rw [deepDerefFields_succ]
          cases hd : deepDereference f st sf.value with
          | error e =>
            simp only [hd] at hr
            have he : e ≠ .outOfFuel := by intro h; subst h; exact hne hr.symm
            simp only [hD st sf.value _ hd (by simp [he])]
            exact hr
          | ok p =>
            obtain ⟨v1, st1⟩ := p
            simp only [hd] at hr
            simp only [hD st sf.value _ hd (by simp)]
            cases hrest : deepDerefFields f st1 rest with
            | error e =>
              simp only [hrest] at hr
              have he : e ≠ .outOfFuel := by intro h; subst h; exact hne hr.symm
              simp only [hF st1 rest _ hrest (by simp [he])]
              exact hr
            | ok q =>
              obtain ⟨sfs2, st2⟩ := q
              simp only [hrest] at hr
              simp only [hF st1 rest _ hrest (by simp)]
              exact hr
      · intro st v r hr hne
        rw [deepDerefMapKeys_succ] at hr
        rw [deepDerefMapKeys_succ]
        cases hmk : v.mapKeys with
        | none => simp only [hmk] at hr ⊢; exact hr
        | some mk0 =>
          simp only [hmk] at hr ⊢
          cases hd : deepDereference f st mk0 with
          | error e =>
            simp only [hd] at hr
            have he : e ≠ .outOfFuel := by intro h; subst h; exact hne hr.symm
            simp only [hD st mk0 _ hd (by simp [he])]
            exact hr
          | ok p =>
            obtain ⟨m1, st1⟩ := p
            simp only [hd] at hr
            simp only [hD st mk0 _ hd (by simp)]
            exact hr
      · intro st v r hr hne
        rw [deepDerefElems_succ] at hr
        rw [deepDerefElems_succ]
        cases hel : v.elems with
        | none => simp only [hel] at hr ⊢; exact hr
        | some e0 =>
          simp only [hel] at hr ⊢
          cases hd : deepDereference f st e0 with
          | error e =>
            simp only [hd] at hr
            have he : e ≠ .outOfFuel := by intro h; subst h; exact hne hr.symm
            simp only [hD st e0 _ hd (by simp [he])]
            exact hr
          | ok p =>
            obtain ⟨e1, st1⟩ := p
            simp only [hd] at hr
            simp only [hD st e0 _ hd (by simp)]
            exact hr

theorem deepDereference_mono_le (f g : Nat) (st : DriverState) (v : Value)
    (r : Except GoErr (Value × DriverState)) (hfg : f ≤ g)
    (hr : deepDereference f st v = r) (hne : r ≠ .error .outOfFuel) :
    deepDereference g st v = r := by
  obtain ⟨d, rfl⟩ := Nat.exists_eq_add_of_le hfg
  clear hfg
  induction d with
  | zero => exact hr
  | succ d ihd => exact (deepDeref_mono (f + d)).1 st v r ihd hne

theorem deepDerefFields_mono_le (f g : Nat) (st : DriverState)
    (sfs : List StructField) (r : Except GoErr (List StructField × DriverState))
    (hfg : f ≤ g) (hr : deepDerefFields f st sfs = r)
    (hne : r ≠ .error .outOfFuel) : deepDerefFields g st sfs = r := by
  obtain ⟨d, rfl⟩ := Nat.exists_eq_add_of_le hfg
  clear hfg
  induction d with
  | zero => exact hr
  | succ d ihd => exact (deepDeref_mono (f + d)).2.1 st sfs r ihd hne

end Moduledoc

namespace Moduledoc

theorem sameAs_mem_valueRefs (v : Value) (h : v.sameAs ≠ "") :
    v.sameAs ∈ valueRefs v := by
  cases v with
  | mk t n fs k e d s a b =>
    simp only [Value.sameAs] at h ⊢
    simp [valueRefs, h]

theorem mem_fieldListRefs (sfs : List StructField) (sf : StructField)
    (hsf : sf ∈ sfs) (s : String) (hs : s ∈ valueRefs sf.value) :
    s ∈ fieldListRefs sfs := by
  induction sfs with
  | nil => simp at hsf
  | cons a rest ih =>
    rw [List.mem_cons] at hsf
    rcases hsf with rfl | hsf
    · simp only [fieldListRefs, List.mem_append]
      exact Or.inl hs
    · simp only [fieldListRefs, List.mem_append]
      exact Or.inr (ih hsf)

theorem valueRefs_field (v : Value) (sf : StructField) (hsf : sf ∈ v.structFields)
    (s : String) (hs : s ∈ valueRefs sf.value) : s ∈ valueRefs v := by
  cases v with
  | mk t n fs k e d sa a b =>
    simp only [Value.structFields] at hsf
    simp only [valueRefs, List.mem_append]
    exact Or.inl (Or.inl (Or.inr (mem_fieldListRefs fs sf hsf s hs)))

theorem valueRefs_mapKeys (v mk0 : Value) (hmk : v.mapKeys = some mk0)
    (s : String) (hs : s ∈ valueRefs mk0) : s ∈ valueRefs v := by
  cases v with
  | mk t n fs k e d sa a b =>
    simp only [Value.mapKeys] at hmk
    subst hmk
    simp only [valueRefs, optValueRefs, List.mem_append]
    exact Or.inl (Or.inr hs)

theorem valueRefs_elems (v e0 : Value) (hel : v.elems = some e0)
    (s : String) (hs : s ∈ valueRefs e0) : s ∈ valueRefs v := by
  cases v with
  | mk t n fs k e d sa a b =>
    simp only [Value.elems] at hel
    subst hel
    simp only [valueRefs, optValueRefs, List.mem_append]
    exact Or.inr hs

theorem valueRefs_setInnermost :
    ∀ (v : Value) (ns ik : Option String),
      valueRefs (setInnermostModInfo v ns ik) = valueRefs v
  | .mk t n fs k none d s a b, ns, ik => rfl
  | .mk t n fs k (some ev) d s a b, ns, ik => by
    simp only [setInnermostModInfo, valueRefs, optValueRefs,
      valueRefs_setInnermost ev ns ik]

theorem valueRefs_setDoc (v : Value) (d : String) :
    valueRefs (v.setDoc d) = valueRefs v := by
  cases v; rfl

theorem sizeOf_value_of_mem_fields (v : Value) (sf : StructField)
    (h : sf ∈ v.structFields) : sizeOf sf.value < sizeOf v := by
  cases v with
  | mk t n fs k e d s a b =>
    simp only [Value.structFields] at h
    have h1 := List.sizeOf_lt_of_mem h
    obtain ⟨key, val, doc⟩ := sf
    simp only [StructField.value]
    simp only [Value.mk.sizeOf_spec]
    simp only [Prod.mk.sizeOf_spec] at h1
    omega

theorem sizeOf_mapKeys_lt (v mk0 : Value) (h : v.mapKeys = some mk0) :
    sizeOf mk0 < sizeOf v := by
  cases v with
  | mk t n fs k e d s a b =>
    simp only [Value.mapKeys] at h
    subst h
    simp only [Value.mk.sizeOf_spec, Option.some.sizeOf_spec]
    omega

theorem sizeOf_elems_lt (v e0 : Value) (h : v.elems = some e0) :
    sizeOf e0 < sizeOf v := by
  cases v with
  | mk t n fs k e d s a b =>
    simp only [Value.elems] at h
    subst h
    simp only [Value.mk.sizeOf_spec, Option.some.sizeOf_spec]
    omega

end Moduledoc

namespace Moduledoc

theorem Value.setStructFields_mapKeys (v : Value) (sfs : List StructField) :
    (v.setStructFields sfs).mapKeys = v.mapKeys := by cases v; rfl

theorem Value.setStructFields_elems (v : Value) (sfs : List StructField) :
    (v.setStructFields sfs).elems = v.elems := by cases v; rfl

theorem Value.setMapKeys_elems (v : Value) (o : Option Value) :
    (v.setMapKeys o).elems = v.elems := by cases v; rfl

theorem deepDerefMapKeys_elems (f : Nat) (st : DriverState) (v v' : Value)
    (st' : DriverState) (h : deepDerefMapKeys f st v = .ok (v', st')) :
    v'.elems = v.elems := by
  match f with
  | 0 => simp [deepDerefMapKeys] at h
  | f + 1 =>
    rw [deepDerefMapKeys_succ] at h
    cases hmk : v.mapKeys with
    | none =>
      simp only [hmk, Except.ok.injEq, Prod.mk.injEq] at h
      rw [← h.1]
    | some mk0 =>
      simp only [hmk] at h
      cases hd : deepDereference f st mk0 with
      | error e => simp [hd] at h
      | ok p =>
        obtain ⟨m1, st1⟩ := p
        simp only [hd, Except.ok.injEq, Prod.mk.injEq] at h
        rw [← h.1, Value.setMapKeys_elems]

theorem deepDerefFields_total (st : DriverState) (sfs : List StructField)
    (h : ∀ sf ∈ sfs, ∃ f, deepDereference f st sf.value ≠ .error .outOfFuel) :
    ∃ f, deepDerefFields f st sfs ≠ .error .outOfFuel := by
  induction sfs with
  | nil => exact ⟨1, by simp [deepDerefFields]⟩
  | cons sf rest ih =>
    obtain ⟨f1, h1⟩ := h sf (by simp)
    obtain ⟨f2, h2⟩ := ih (fun sf' hsf' => h sf' (by simp [hsf']))
    cases hd : deepDereference f1 st sf.value with
    | error e =>
      have he : e ≠ .outOfFuel := by intro hh; subst hh; exact h1 hd
      have hdF : deepDereference (max f1 f2) st sf.value = .error e :=
        deepDereference_mono_le f1 (max f1 f2) st _ _ (le_max_left _ _) hd
          (by simp [he])
      refine ⟨max f1 f2 + 1, ?_⟩
      rw [deepDerefFields_succ]
      simp only [hdF]
      simp [he]
    | ok p =>
      obtain ⟨v1, st1⟩ := p
      have hst1 : st1 = st := (deepDeref_state_all f1).1 st sf.value v1 st1 hd
      rw [hst1] at hd
      have hdF : deepDereference (max f1 f2) st sf.value = .ok (v1, st) :=
        deepDereference_mono_le f1 (max f1 f2) st _ _ (le_max_left _ _) hd (by simp)
      cases hrest : deepDerefFields f2 st rest with
      | error e =>
        have he : e ≠ .outOfFuel := by intro hh; subst hh; exact h2 hrest
        have hrF : deepDerefFields (max f1 f2) st rest = .error e :=
          deepDerefFields_mono_le f2 (max f1 f2) st _ _ (le_max_right _ _) hrest
            (by simp [he])
        refine ⟨max f1 f2 + 1, ?_⟩
        rw [deepDerefFields_succ]
        simp only [hdF, hrF]
        simp [he]
      | ok q =>
        obtain ⟨sfs2, st2⟩ := q
        have hrF : deepDerefFields (max f1 f2) st rest = .ok (sfs2, st2) :=
          deepDerefFields_mono_le f2 (max f1 f2) st _ _ (le_max_right _ _) hrest
            (by simp)
        refine ⟨max f1 f2 + 1, ?_⟩
        rw [deepDerefFields_succ]
        simp only [hdF, hrF]
        simp

theorem deepDerefMapKeys_total (st : DriverState) (v : Value)
    (h : ∀ mk0, v.mapKeys = some mk0 →
      ∃ f, deepDereference f st mk0 ≠ .error .outOfFuel) :
    ∃ f, deepDerefMapKeys f st v ≠ .error .outOfFuel := by
  cases hmk : v.mapKeys with
  | none => exact ⟨1, by rw [deepDerefMapKeys_succ]; simp [hmk]⟩
  | some mk0 =>
    obtain ⟨f1, h1⟩ := h mk0 hmk
    cases hd : deepDereference f1 st mk0 with
    | error e =>
      have he : e ≠ .outOfFuel := by intro hh; subst hh; exact h1 hd
      exact ⟨f1 + 1, by rw [deepDerefMapKeys_succ]; simp [hmk, hd, he]⟩
    | ok p =>
      obtain ⟨m1, st1⟩ := p
      exact ⟨f1 + 1, by rw [deepDerefMapKeys_succ]; simp [hmk, hd]⟩

theorem deepDerefElems_total (st : DriverState) (v : Value)
    (h : ∀ e0, v.elems = some e0 →
      ∃ f, deepDereference f st e0 ≠ .error .outOfFuel) :
    ∃ f, deepDerefElems f st v ≠ .error .outOfFuel := by
  cases hel : v.elems with
  | none => exact ⟨1, by rw [deepDerefElems_succ]; simp [hel]⟩
  | some e0 =>
    obtain ⟨f1, h1⟩ := h e0 hel
    cases hd : deepDereference f1 st e0 with
    | error e =>
      have he : e ≠ .outOfFuel := by intro hh; subst hh; exact h1 hd
      exact ⟨f1 + 1, by rw [deepDerefElems_succ]; simp [hel, hd, he]⟩
    | ok p =>
      obtain ⟨e1, st1⟩ := p
      exact ⟨f1 + 1, by rw [deepDerefElems_succ]; simp [hel, hd]⟩

end Moduledoc

namespace Moduledoc

theorem deepDereference_total_of (st : DriverState) (v v1 : Value)
    (hd : dereference st v = .ok (v1, st))
    (hFields : ∀ sf ∈ v1.structFields,
      ∃ f, deepDereference f st sf.value ≠ .error .outOfFuel)
    (hMk : ∀ mk0, v1.mapKeys = some mk0 →
      ∃ f, deepDereference f st mk0 ≠ .error .outOfFuel)
    (hEl : ∀ e0, v1.elems = some e0 →
      ∃ f, deepDereference f st e0 ≠ .error .outOfFuel) :
    ∃ f, deepDereference f st v ≠ .error .outOfFuel := by
  obtain ⟨fF, hfF⟩ := deepDerefFields_total st v1.structFields hFields
  cases hflds : deepDerefFields fF st v1.structFields with
  | error e =>
    have he : e ≠ .outOfFuel := by intro hh; subst hh; exact hfF hflds
    refine ⟨fF + 1, ?_⟩
    rw [deepDereference_succ]
    simp only [hd, hflds]
    simp [he]
  | ok p =>
    obtain ⟨sfs, st2⟩ := p
    have hst2 : st2 = st := (deepDeref_state_all fF).2.1 st v1.structFields sfs st2 hflds
    rw [hst2] at hflds
    obtain ⟨fM, hfM⟩ := deepDerefMapKeys_total st (v1.setStructFields sfs)
      (fun mk0 hmk0 => hMk mk0 (by rw [← Value.setStructFields_mapKeys v1 sfs]; exact hmk0))
    cases hmks : deepDerefMapKeys fM st (v1.setStructFields sfs) with
    | error e =>
      have he : e ≠ .outOfFuel := by intro hh; subst hh; exact hfM hmks
      have hfldsL : deepDerefFields (max fF fM) st v1.structFields = .ok (sfs, st) :=
        deepDerefFields_mono_le fF (max fF fM) st _ _ (le_max_left _ _) hflds (by simp)
      have hmksL : deepDerefMapKeys (max fF fM) st (v1.setStructFields sfs) = .error e := by
        obtain ⟨d, hd2⟩ := Nat.exists_eq_add_of_le (le_max_right fF fM)
        rw [hd2]
        clear hd2
        induction d with
        | zero => exact hmks
        | succ d ihd => exact (deepDeref_mono (fM + d)).2.2.1 st _ _ ihd (by simp [he])
      refine ⟨max fF fM + 1, ?_⟩
      rw [deepDereference_succ]
      simp only [hd, hfldsL, hmksL]
      simp [he]
    | ok q =>
      obtain ⟨v2, st3⟩ := q
      have hst3 : st3 = st :=
        (deepDeref_state_all fM).2.2.1 st (v1.setStructFields sfs) v2 st3 hmks
      rw [hst3] at hmks
      have hv2e : v2.elems = v1.elems := by
        rw [deepDerefMapKeys_elems fM st (v1.setStructFields sfs) v2 st hmks,
          Value.setStructFields_elems]
      obtain ⟨fE, hfE⟩ := deepDerefElems_total st v2
        (fun e0 he0 => hEl e0 (by rw [← hv2e]; exact he0))
      -- lift everything to F := max (max fF fM) fE
      have hfldsL : deepDerefFields (max (max fF fM) fE) st v1.structFields =
          .ok (sfs, st) :=
        deepDerefFields_mono_le fF _ st _ _
          (le_trans (le_max_left _ _) (le_max_left _ _)) hflds (by simp)
      have hmksL : deepDerefMapKeys (max (max fF fM) fE) st (v1.setStructFields sfs) =
          .ok (v2, st) := by
        obtain ⟨d, hd2⟩ :=
          Nat.exists_eq_add_of_le (le_trans (le_max_right fF fM) (le_max_left _ fE))
        rw [hd2]
        clear hd2
        induction d with
        | zero => exact hmks
        | succ d ihd => exact (deepDeref_mono (fM + d)).2.2.1 st _ _ ihd (by simp)
      cases hels : deepDerefElems fE st v2 with
      | error e =>
        have he : e ≠ .outOfFuel := by intro hh; subst hh; exact hfE hels
        have helsL : deepDerefElems (max (max fF fM) fE) st v2 = .error e := by
          obtain ⟨d, hd2⟩ := Nat.exists_eq_add_of_le (le_max_right (max fF fM) fE)
          rw [hd2]
          clear hd2
          induction d with
          | zero => exact hels
          | succ d ihd => exact (deepDeref_mono (fE + d)).2.2.2 st _ _ ihd (by simp [he])
        refine ⟨max (max fF fM) fE + 1, ?_⟩
        rw [deepDereference_succ]
        simp only [hd, hfldsL, hmksL, helsL]
        simp [he]
      | ok r =>
        have helsL : deepDerefElems (max (max fF fM) fE) st v2 = .ok r := by
          obtain ⟨d, hd2⟩ := Nat.exists_eq_add_of_le (le_max_right (max fF fM) fE)
          rw [hd2]
          clear hd2
          induction d with
          | zero => exact hels
          | succ d ihd => exact (deepDeref_mono (fE + d)).2.2.2 st _ _ ihd (by simp)
        refine ⟨max (max fF fM) fE + 1, ?_⟩
        rw [deepDereference_succ]
        simp only [hd, hfldsL, hmksL, helsL]
        simp

end Moduledoc

namespace Moduledoc

theorem deepDereference_ranked (rank : String → Nat) (st : DriverState)
    (hR : DBRanked rank st) (n : Nat) (v : Value)
    (hv : ∀ r ∈ valueRefs v, rank r < n) :
    ∃ f, deepDereference f st v ≠ .error .outOfFuel := by
  by_cases hs : v.sameAs = ""
  · have hbeq : (v.sameAs == "") = true := by simp [hs]
    have hd : dereference st v = .ok (v, st) := by
      simp [dereference, hbeq]
    apply deepDereference_total_of st v v hd
    · intro sf hsf
      exact deepDereference_ranked rank st hR n sf.value
        (fun r hr => hv r (valueRefs_field v sf hsf r hr))
    · intro mk0 hmk
      exact deepDereference_ranked rank st hR n mk0
        (fun r hr => hv r (valueRefs_mapKeys v mk0 hmk r hr))
    · intro e0 hel
      exact deepDereference_ranked rank st hR n e0
        (fun r hr => hv r (valueRefs_elems v e0 hel r hr))
  · have hbeq : (v.sameAs == "") = false := by simp [hs]
    cases hl : derefLoad st v.sameAs with
    | none =>
      refine ⟨1, ?_⟩
      rw [deepDereference_succ]
      have hd : dereference st v =
          .error (.msg ("dereference failed, type not found: " ++
            (splitSameAs v.sameAs).1 ++ "@" ++ (splitSameAs v.sameAs).2)) := by
        simp [dereference, hbeq, hl]
      simp [hd]
    | some N =>
      have hrank : rank v.sameAs < n := hv v.sameAs (sameAs_mem_valueRefs v hs)
      have key : ∀ v1 : Value, valueRefs v1 = valueRefs N →
          dereference st v = .ok (v1, st) →
          ∃ f, deepDereference f st v ≠ .error .outOfFuel := by
        intro v1 hrefs hd
        apply deepDereference_total_of st v v1 hd
        · intro sf hsf
          apply deepDereference_ranked rank st hR (rank v.sameAs) sf.value
          intro r hr
          exact hR v.sameAs N hl r (hrefs ▸ valueRefs_field v1 sf hsf r hr)
        · intro mk0 hmk
          apply deepDereference_ranked rank st hR (rank v.sameAs) mk0
          intro r hr
          exact hR v.sameAs N hl r (hrefs ▸ valueRefs_mapKeys v1 mk0 hmk r hr)
        · intro e0 hel
          apply deepDereference_ranked rank st hR (rank v.sameAs) e0
          intro r hr
          exact hR v.sameAs N hl r (hrefs ▸ valueRefs_elems v1 e0 hel r hr)
      by_cases hdoc : (v.doc == "") = true
      · apply key (setInnermostModInfo N v.moduleNamespace v.moduleInlineKey)
          (valueRefs_setInnermost N _ _)
        simp [dereference, hbeq, hl, hdoc]
      · have hdoc' : (v.doc == "") = false := by
          cases h : (v.doc == "") with
          | false => rfl
          | true => exact absurd h hdoc
        apply key ((setInnermostModInfo N v.moduleNamespace
            v.moduleInlineKey).setDoc (v.doc ++ "\n\n" ++
            (setInnermostModInfo N v.moduleNamespace v.moduleInlineKey).doc))
          ((valueRefs_setDoc _ _).trans (valueRefs_setInnermost N _ _))
        simp [dereference, hbeq, hl, hdoc']
termination_by (n, sizeOf v)
decreasing_by
  · exact Prod.Lex.right n (sizeOf_value_of_mem_fields v sf hsf)
  · exact Prod.Lex.right n (sizeOf_mapKeys_lt v mk0 hmk)
  · exact Prod.Lex.right n (sizeOf_elems_lt v e0 hel)
  · exact Prod.Lex.left _ _ hrank
  · exact Prod.Lex.left _ _ hrank
  · exact Prod.Lex.left _ _ hrank

end Moduledoc

namespace Moduledoc

theorem le_foldr_max (l : List Nat) (x : Nat) (h : x ∈ l) :
    x ≤ l.foldr max 0 := by
  induction l with
  | nil => simp at h
  | cons a t ih =>
    rw [List.mem_cons] at h
    rcases h with rfl | h
    · exact le_max_left _ _
    · exact le_trans (ih h) (le_max_right _ _)

/-- Claim C4 counterexample: on the very cache the spec prescribes for a
self-referential type (an expanded `p.T` node whose named child is a
placeholder back to `p.T` itself), `deepDereference` of a `p.T`
placeholder exhausts every fuel budget: with no cycle guard, each
resolution re-enters the same placeholder through the struct-field
loop. -/
theorem C4_cyclic_cache_divergence :
    DeepDerefDiverges c4st (Value.placeholder "p.T") := by
  intro fuel
  induction fuel using Nat.strong_induction_on with
  | _ fuel ih =>
    match fuel with
    | 0 => rfl
    | 1 => rfl
    | f + 2 =>
      have h0 := ih f (by omega)
      rw [deepDereference_succ]
      have hd : dereference c4st (Value.placeholder "p.T") =
          .ok (c4node, c4st) := rfl
      rw [hd]
      have hsf : c4node.structFields =
          [("next", Value.placeholder "p.T", "")] := rfl
      simp only [hsf]
      rw [deepDerefFields_succ]
      have hv : StructField.value ("next", Value.placeholder "p.T", "") =
          Value.placeholder "p.T" := rfl
      rw [hv, h0]

/-- Claim C4 (amended): `deepDereference` has no cycle guard, so its
termination needs an acyclicity hypothesis on the stored graph; when
the storage reference graph is ranked (every reference of a stored node
has strictly smaller rank than the name resolving to it), some fuel
budget suffices for every starting value.  Without that hypothesis the
claim is false: see the cyclic-cache divergence. -/
theorem C4_deref_termination (rank : String → Nat) (st : DriverState)
    (v : Value) (hR : DBRanked rank st) :
    ∃ f, deepDereference f st v ≠ .error .outOfFuel :=
  deepDereference_ranked rank st hR (((valueRefs v).map rank).foldr max 0 + 1) v
    (fun r hr => Nat.lt_succ_of_le
      (le_foldr_max _ _ (List.mem_map_of_mem rank hr)))

/-- Claim C4 witness: on a storage holding one reference-free leaf
entry, the rank condition holds and dereferencing the matching
placeholder terminates. -/
theorem C4_deref_termination_witness :
    DBRanked (fun _ => 0) c4leafSt ∧
      ∃ f, deepDereference f c4leafSt (Value.placeholder "p.A") ≠
        .error .outOfFuel := by
  have hR : DBRanked (fun _ => 0) c4leafSt := by
    intro s N h r hr
    have hN : N = Value.ofType Ty.Struct := by
      simp only [derefLoad, dbGetTypeByName, c4leafSt, List.find?] at h
      cases hk : ((("p", "A", ""), Value.ofType Ty.Struct).1 ==
          ((SplitLastDot (splitSameAs s).1).1, (SplitLastDot (splitSameAs s).1).2,
            (splitSameAs s).2)) with
      | false => rw [hk] at h; simp at h
      | true => rw [hk] at h; simp at h; exact h.symm
    rw [hN] at hr
    simp [valueRefs, Value.ofType, fieldListRefs, optValueRefs, Ty.Struct] at hr
  exact ⟨hR, C4_deref_termination (fun _ => 0) c4leafSt (Value.placeholder "p.A") hR⟩

end Moduledoc
